/-
  Verification of the pipeline-manager frontend core against its specification.

  The development shallowly embeds the two core subsystems:
  * `NodeFactory.js` — interface/property resolution (`parseIntefaces`),
    portable-state normalization (`parseNodeState`), discrepancy detection
    (`detectDiscrepancies`), the per-node `save`/`load` transforms, and
    `SubgraphFactory`;
  * `ExternalApplicationManager.js` — the connection manager: `openTCP`,
    `requestSpecification`, `checkStatus`, `invokeFetchAction`,
    `startStatusInterval`/`stopStatusInterval`, `initializeConnection`.

  JavaScript objects used as string-keyed maps are embedded as association
  lists with JS semantics: assignment to an existing key updates the value in
  place (keeping the key's position), assignment to a new key appends it, and
  the spread merge of two objects takes the first object's keys in order
  (values overridden by the second where shared) followed by the second
  object's new keys.  JS strings are embedded as Lean strings, with `slice`
  and `indexOf` modelled on the character list.
-/
import Mathlib

/-! ## JS string primitives -/

/-- `s.data.drop n` as a string: the suffix of `s` from character index `n`. -/
def dropStr (s : String) (n : Nat) : String := ⟨s.data.drop n⟩

/-- Clamp a possibly negative JS index into `[0, len]` as ECMAScript
`String.prototype.slice` does: a negative index counts from the end. -/
def jsIdx (len : Nat) (i : Int) : Nat :=
  (max 0 (min (Int.ofNat len) (if i < 0 then Int.ofNat len + i else i))).toNat

/-- `s.slice(a, b)` of JavaScript. -/
def jsSlice2 (s : String) (a b : Int) : String :=
  ⟨(s.data.take (jsIdx s.data.length b)).drop (jsIdx s.data.length a)⟩

/-- `s.slice(a)` of JavaScript. -/
def jsSliceFrom (s : String) (a : Int) : String :=
  jsSlice2 s a (Int.ofNat s.data.length)

/-- `s.indexOf(c)` of JavaScript: index of the first occurrence, `-1` if absent. -/
def jsIndexOf (s : String) (c : Char) : Int :=
  match s.data.findIdx? (· = c) with
  | some i => Int.ofNat i
  | none => -1

/-- Little-endian decimal digits of a natural number (empty for `0`). -/
def digitsRev (n : Nat) : List Nat :=
  if h : n = 0 then [] else n % 10 :: digitsRev (n / 10)
decreasing_by exact Nat.div_lt_self (Nat.pos_of_ne_zero h) (by decide)

/-- The decimal string a JS template literal produces for a natural number. -/
def jsNatStr (n : Nat) : String :=
  if n = 0 then "0" else ⟨((digitsRev n).map Nat.digitChar).reverse⟩

/-! ## JS object-as-map primitives over association lists -/

/-- Key membership of a JS object. -/
def hasKey {α : Type} (m : List (String × α)) (k : String) : Bool :=
  (m.lookup k).isSome

/-- JS property assignment `m[k] = v`: update in place if the key exists
(keeping its position), append otherwise. -/
def upsert {α : Type} (m : List (String × α)) (k : String) (v : α) :
    List (String × α) :=
  if hasKey m k then
    m.map (fun kv => if kv.1 = k then (kv.1, v) else kv)
  else m ++ [(k, v)]

/-- JS spread merge `{...a, ...b}`. -/
def objMerge {α : Type} (a b : List (String × α)) : List (String × α) :=
  (a.map (fun kv =>
    match b.lookup kv.1 with
    | some v => (kv.1, v)
    | none => kv)) ++ b.filter (fun kv => !(hasKey a kv.1))

/-! ## NodeFactory.js: data model -/

/-- The three interface directions recognized by `parseIntefaces` and
`parseNodeState` (the literal strings `input`, `inout`, `output`). -/
inductive Dir
  | input
  | inout
  | output
deriving DecidableEq

/-- The JS string denoting a direction. -/
def Dir.str : Dir → String
  | .input => "input"
  | .inout => "inout"
  | .output => "output"

/-- An interface side (`left` or `right`). -/
inductive Side
  | left
  | right
deriving DecidableEq

/-- JSON-like runtime values held by properties.  A live value of `none`
stands for JavaScript `undefined`; `JValue.null` is the explicit JSON null. -/
inductive JValue
  | null
  | bool (b : Bool)
  | num (n : Int)
  | str (s : String)
deriving DecidableEq

/-- The `type` field of a raw interface entry: a single string or a list. -/
inductive RawType
  | single (s : String)
  | many (l : List String)
deriving DecidableEq

/-- A raw interface entry of a node-type specification, as consumed by
`parseIntefaces`: `{name, type, direction, side?, maxConnectionsCount?,
array?}`.  The optional `array` field is the half-open expansion range. -/
structure RawIntf where
  name : String
  type : RawType
  direction : Dir
  side : Option Side
  maxConnectionsCount : Option Int
  array : Option (Nat × Nat)
deriving DecidableEq

/-- A concrete port descriptor as produced by `createInterface`:
the `NodeInterface` object with the fields the factory sets on it. -/
structure PortDescr where
  name : String
  type : List String
  componentName : String
  maxConnectionsCount : Option Int
  direction : Dir
  side : Side
deriving DecidableEq

/-- `createInterface(io, name)` of NodeFactory.js: builds the descriptor,
normalizing a string `type` into a one-element list and defaulting the side
to `right` for outputs and `left` otherwise. -/
def createInterface (io : RawIntf) (nameArg : Option String) : PortDescr :=
  { name := nameArg.getD io.name
    type := match io.type with
      | .single s => [s]
      | .many l => l
    componentName := "NodeInterface"
    maxConnectionsCount := io.maxConnectionsCount
    direction := io.direction
    side := io.side.getD (if io.direction = .output then .right else .left) }

/-- The per-entry expansion step of `parseIntefaces`: an entry with
`array = [lo, hi)` emits one descriptor per index `j ∈ [lo, hi)` under the
name `name[j]`; an entry without a range emits one descriptor as-is. -/
def expandEntry (io : RawIntf) : List (String × PortDescr) :=
  match io.array with
  | some (lo, hi) =>
    (List.range' lo (hi - lo)).map (fun j =>
      let nn := io.name ++ "[" ++ jsNatStr j ++ "]"
      (nn, createInterface io (some nn)))
  | none => [(io.name, createInterface io none)]

/-- The three direction buckets `tempIO` of `parseIntefaces`. -/
structure Buckets where
  input : List (String × PortDescr)
  inout : List (String × PortDescr)
  output : List (String × PortDescr)

/-- Insert a list of key/descriptor pairs by successive JS assignments. -/
def upsertMany {α : Type} (m : List (String × α)) (kvs : List (String × α)) :
    List (String × α) :=
  kvs.foldl (fun acc kv => upsert acc kv.1 kv.2) m

/-- The first pass of `parseIntefaces`: classify every emitted descriptor
into the bucket of its `direction` field. -/
def buildBuckets (l : List RawIntf) : Buckets :=
  l.foldl (fun b io =>
    match io.direction with
    | .input => { b with input := upsertMany b.input (expandEntry io) }
    | .inout => { b with inout := upsertMany b.inout (expandEntry io) }
    | .output => { b with output := upsertMany b.output (expandEntry io) })
    ⟨[], [], []⟩

/-- `parseIntefaces(interfaces)` of NodeFactory.js: returns the
`{inputs, outputs}` pair of key-renamed maps.  An inout-bucket entry whose
name already occurs in the input or output bucket is dropped; survivors are
prefixed `inout_` and merged before the `input_`-prefixed inputs; outputs
are prefixed `output_`. -/
def parseIntefaces (l : List RawIntf) :
    List (String × PortDescr) × List (String × PortDescr) :=
  let t := buildBuckets l
  let filteredInouts := t.inout.filter
    (fun kv => !(hasKey t.output kv.1) && !(hasKey t.input kv.1))
  let renamedInputs := t.input.map (fun kv => ("input_" ++ kv.1, kv.2))
  let renamedInouts := filteredInouts.map (fun kv => ("inout_" ++ kv.1, kv.2))
  let renamedOutputs := t.output.map (fun kv => ("output_" ++ kv.1, kv.2))
  (objMerge renamedInouts renamedInputs, renamedOutputs)

/-! ## NodeFactory.js: live instances and portable state -/

/-- The live state of one interface object on a node instance (a baklava
`NodeInterface`): its id, current value (`none` = JS `undefined`), the
`direction`/`side` fields the factory sets on ports (absent on property
interfaces), and the `port` flag (`true` for ports, `false` for properties). -/
structure IntfState where
  id : String
  value : Option JValue
  direction : Option Dir
  side : Option Side
  port : Bool
deriving DecidableEq

/-- A node position. -/
structure Pos where
  x : Int
  y : Int
deriving DecidableEq

/-- A live node instance: the fields of the factory-built node object that
`save`/`load` read and write.  `inputs` holds ports and property interfaces
(keyed `input_*` / `inout_*` / `property_*`), `outputs` holds output ports. -/
structure NodeInst where
  type : String
  id : String
  title : String
  position : Option Pos
  inputs : List (String × IntfState)
  outputs : List (String × IntfState)
deriving DecidableEq

/-- A portable interface record `{name, id, direction, side}` as written by
`save` (where both options are present) and as read by `parseNodeState`
(where either may be absent; an unrecognized direction string behaves
exactly like an absent one — the entry is dropped — so both are modelled
as `none`). -/
structure PortableIntf where
  name : String
  id : String
  direction : Option Dir
  side : Option Side
deriving DecidableEq

/-- A portable property record `{name, id, value}`; `save` always writes an
explicit value (normalizing `undefined` to null). -/
structure PortableProp where
  name : String
  id : String
  value : Option JValue
deriving DecidableEq

/-- The record stored in the `inputs`/`outputs` maps of a parsed node state:
the shallow copy `{...intf}` or `{...prop}` made by `parseNodeState`, so a
union of the two portable record shapes. -/
structure ParsedRec where
  name : String
  id : String
  direction : Option Dir := none
  side : Option Side := none
  value : Option JValue := none
deriving DecidableEq

/-- A portable node state as consumed by `load`: `{type, id, name?,
position?, interfaces?, properties?, inputs?, outputs?}`.  An absent
`inputs`/`outputs` object is normalized to empty by `parseNodeState`, so it
is modelled as the empty map. -/
structure PortableNode where
  type : String
  id : String
  name : Option String
  position : Option Pos
  interfaces : Option (List PortableIntf)
  properties : Option (List PortableProp)
  inputs : List (String × ParsedRec) := []
  outputs : List (String × ParsedRec) := []
deriving DecidableEq

/-- The result of `parseNodeState`: the live-shaped node state with the
direction-prefix key convention expanded and `name` renamed to `title`. -/
structure ParsedNode where
  type : String
  id : String
  title : String
  position : Option Pos
  inputs : List (String × ParsedRec)
  outputs : List (String × ParsedRec)
deriving DecidableEq

/-- The shallow copy `{...intf}` of a portable interface record. -/
def recOfIntf (i : PortableIntf) : ParsedRec :=
  { name := i.name, id := i.id, direction := i.direction, side := i.side }

/-- The shallow copy `{...prop}` of a portable property record. -/
def recOfProp (p : PortableProp) : ParsedRec :=
  { name := p.name, id := p.id, value := p.value }

/-- One step of the interface loop of `parseNodeState`, restricted to the
`inputs` map: an `input`/`inout`-direction record is assigned under
`{direction}_{name}`; other records leave the map unchanged. -/
def addIntfInput (m : List (String × ParsedRec)) (i : PortableIntf) :
    List (String × ParsedRec) :=
  match i.direction with
  | some .input => upsert m ("input_" ++ i.name) (recOfIntf i)
  | some .inout => upsert m ("inout_" ++ i.name) (recOfIntf i)
  | _ => m

/-- One step of the interface loop of `parseNodeState`, restricted to the
`outputs` map. -/
def addIntfOutput (m : List (String × ParsedRec)) (i : PortableIntf) :
    List (String × ParsedRec) :=
  match i.direction with
  | some .output => upsert m ("output_" ++ i.name) (recOfIntf i)
  | _ => m

/-- One step of the property loop of `parseNodeState`: assigned into the
`inputs` map under `property_{name}`. -/
def addProp (m : List (String × ParsedRec)) (p : PortableProp) :
    List (String × ParsedRec) :=
  upsert m ("property_" ++ p.name) (recOfProp p)

/-- `parseNodeState(state)` of NodeFactory.js: normalize a portable node
state into live-shaped `inputs`/`outputs` maps, and rename `name` to
`title` (an absent `name` becomes the empty title). -/
def parseNodeState (st : PortableNode) : ParsedNode :=
  { type := st.type
    id := st.id
    title := (st.name).getD ""
    position := st.position
    inputs := (st.properties.getD []).foldl addProp
      ((st.interfaces.getD []).foldl addIntfInput st.inputs)
    outputs := (st.interfaces.getD []).foldl addIntfOutput st.outputs }

/-- The error message `detectDiscrepancies` builds for one unknown key. -/
def discrepancyMsg (ty nid ioName : String) : String :=
  let idx := jsIndexOf ioName '_'
  let direction := jsSlice2 ioName 0 idx
  let name := jsSliceFrom ioName (idx + 1)
  "Node of name " ++ ty ++ " and id " ++ nid ++ " is corrupted. " ++
    "Interface named - " ++ name ++ " of direction - " ++ direction ++
    " not found in specification!"

/-- `detectDiscrepancies(parsedState, inputs, outputs)` of NodeFactory.js:
every key of the parsed `inputs`/`outputs` maps that names neither a live
input nor a live output contributes one error message, in map order. -/
def detectDiscrepancies (p : ParsedNode)
    (inputs outputs : List (String × IntfState)) : List String :=
  (objMerge p.inputs p.outputs).foldl (fun errs kv =>
    if hasKey inputs kv.1 || hasKey outputs kv.1 then errs
    else errs ++ [discrepancyMsg p.type p.id kv.1]) []

/-! ## NodeFactory.js: the save/load transforms -/

/-- The character length of the stored `direction` string of a port
(`ioState.direction.length` in `save`; ports always carry a direction, and
reading `.length` of an absent one would throw in JS, so the absent case is
modelled as 0 and is unreachable on factory-built instances). -/
def dirLen : Option Dir → Nat
  | some d => d.str.length
  | none => 0

/-- The interface record `save` pushes for a port: the key with the stored
direction's prefix length stripped, plus id, direction and side. -/
def savePortRec (k : String) (s : IntfState) : PortableIntf :=
  { name := jsSliceFrom k (Int.ofNat (dirLen s.direction + 1))
    id := s.id
    direction := s.direction
    side := s.side }

/-- The property record `save` pushes for a property interface: the key with
the `property_` prefix stripped, plus id and the value with `undefined`
normalized to an explicit null. -/
def savePropRec (k : String) (s : IntfState) : PortableProp :=
  { name := jsSliceFrom k (Int.ofNat ("property".length + 1))
    id := s.id
    value := some (s.value.getD .null) }

/-- The `save` transform installed by `NodeFactory`: the parent-saved state
keeps `type`, `id` and `position`; the live `{...inputs, ...outputs}` map is
partitioned by the `port` flag into `interfaces` and `properties` lists (in
map order); the live `inputs`/`outputs` maps are deleted; and the title is
re-emitted under the portable field `name` (the portable state has no
`title` field). -/
def saveNode (inst : NodeInst) : PortableNode :=
  let pair := (objMerge inst.inputs inst.outputs).foldl
    (fun (acc : List PortableIntf × List PortableProp) kv =>
      if kv.2.port then (acc.1 ++ [savePortRec kv.1 kv.2], acc.2)
      else (acc.1, acc.2 ++ [savePropRec kv.1 kv.2]))
    ([], [])
  { type := inst.type
    id := inst.id
    name := some inst.title
    position := inst.position
    interfaces := some pair.1
    properties := some pair.2
    inputs := []
    outputs := [] }

/-- Modelled from the spec: the parent (baklava) `load` the factory wraps is
not part of the repository sources.  Per §4.3 of the spec it applies the
normalized live-shaped state to the instance: node id, title and position
are taken from the state (an absent position is auto-placed, modelled as
the origin, and corrected back to absent by the factory `load` below), and
each live interface whose key occurs in the state has its id updated and
its saved value reapplied (interface records carry no value and leave the
live value untouched). -/
def parentLoad (inst : NodeInst) (p : ParsedNode) : NodeInst :=
  { inst with
    id := p.id
    title := p.title
    position := some (p.position.getD ⟨0, 0⟩)
    inputs := inst.inputs.map (fun kv =>
      match p.inputs.lookup kv.1 with
      | some r => (kv.1, { kv.2 with
          id := r.id
          value := match r.value with
            | some v => some v
            | none => kv.2.value })
      | none => kv)
    outputs := inst.outputs.map (fun kv =>
      match p.outputs.lookup kv.1 with
      | some r => (kv.1, { kv.2 with
          id := r.id
          value := match r.value with
            | some v => some v
            | none => kv.2.value })
      | none => kv) }

/-- Set the side of the interface stored under key `k` (JS
`this.inputs[ioName].side = ...`; the key is present whenever the
discrepancy check has passed). -/
def applySideTo (m : List (String × IntfState)) (k : String) (sd : Side) :
    List (String × IntfState) :=
  m.map (fun kv => if kv.1 = k then (kv.1, { kv.2 with side := some sd }) else kv)

/-- The side-reassignment loop of the factory `load`: every parsed record
carrying both a direction and a side writes that side onto the live
interface of the same key, on the map named by the record's direction. -/
def applySides (inst : NodeInst) (p : ParsedNode) : NodeInst :=
  (objMerge p.inputs p.outputs).foldl (fun acc kv =>
    match kv.2.direction, kv.2.side with
    | some d, some sd =>
      if d = .input ∨ d = .inout then
        { acc with inputs := applySideTo acc.inputs kv.1 sd }
      else
        { acc with outputs := applySideTo acc.outputs kv.1 sd }
    | _, _ => acc) inst

/-- The `load` transform installed by `NodeFactory`: normalize, detect
discrepancies — returning them and leaving the instance untouched when any
are found — otherwise apply the parent load, reapply explicit sides, reset
an absent position to absent, and return the empty error list. -/
def loadNode (inst : NodeInst) (st : PortableNode) : NodeInst × List String :=
  let p := parseNodeState st
  let errors := detectDiscrepancies p inst.inputs inst.outputs
  if errors.isEmpty then
    let i1 := parentLoad inst p
    let i2 := applySides i1 p
    let i3 := if st.position.isNone then { i2 with position := none } else i2
    (i3, [])
  else (inst, errors)

/-! ## NodeFactory.js: SubgraphFactory -/

/-- An exposed-interface record given to `SubgraphFactory`. -/
structure ExposedIntf where
  id : Option String
  nodeInterface : String
  name : String
  direction : Dir
deriving DecidableEq

/-- An interface entry of the built subgraph template. -/
structure TemplateIntf where
  id : String
  nodeInterfaceId : String
  name : String
  direction : Dir
deriving DecidableEq

/-- The subgraph template state `SubgraphFactory` hands to `GraphTemplate`. -/
structure SubgraphState where
  id : String
  nodes : List ParsedNode
  connections : List (String × String × String)
  inputs : List TemplateIntf
  outputs : List TemplateIntf
  name : String
deriving DecidableEq

/-- Build one template interface entry from an exposed-interface record:
the identifier is the record's own id when present and a freshly generated
one (`uuidv4()`, modelled as a generator applied at the record's position in
the filtered list) otherwise. -/
def mkTemplateIntf (fresh : Nat → String) (j : Nat) (i : ExposedIntf) :
    TemplateIntf :=
  { id := i.id.getD (fresh j)
    nodeInterfaceId := i.nodeInterface
    name := i.name
    direction := i.direction }

/-- The input-side list of `SubgraphFactory`: records of direction `input`
or `inout`. -/
def subgraphInputs (fresh : Nat → String) (interfaces : List ExposedIntf) :
    List TemplateIntf :=
  ((interfaces.filter (fun i => i.direction = .input ∨ i.direction = .inout)).enum.map
    (fun ji => mkTemplateIntf fresh ji.1 ji.2))

/-- The output-side list of `SubgraphFactory`: records of direction `output`
(the generator is offset so the two lists draw distinct fresh ids). -/
def subgraphOutputs (fresh : Nat → String) (interfaces : List ExposedIntf) :
    List TemplateIntf :=
  ((interfaces.filter (fun i => i.direction = .output)).enum.map
    (fun ji => mkTemplateIntf (fun j => fresh (interfaces.length + j)) ji.1 ji.2))

/-- `SubgraphFactory(nodes, connections, interfaces, name, type)` of
NodeFactory.js: split the exposed interfaces into the input-like and output
lists, normalize every contained node with `parseNodeState`, and assemble
the template state keyed by the subgraph type. -/
def SubgraphFactory (nodes : List PortableNode)
    (connections : List (String × String × String))
    (interfaces : List ExposedIntf) (name : String) (type : String)
    (fresh : Nat → String) : SubgraphState :=
  { id := type
    nodes := nodes.map parseNodeState
    connections := connections
    inputs := subgraphInputs fresh interfaces
    outputs := subgraphOutputs fresh interfaces
    name := name }

/-! ## ExternalApplicationManager.js -/

/-- Modelled from the spec: the `fetchGET`/`fetchPOST` transport helpers are
not part of the repository sources.  Per §6 of the spec every request
resolves to a response of one of the three categories the caller branches
on; `ok` is HTTP 200 (and satisfies `response.ok`). -/
inductive RStatus
  | ok
  | badRequest
  | serviceUnavailable
deriving DecidableEq

/-- The observable effects the connection manager produces, in order:
alert-bus emissions, assignments to `externalApplicationConnected`, and
`openTCP` invocations. -/
inductive MgrEvent
  | alert (msg : String)
  | alertList (msgs : List String)
  | setConnected (b : Bool)
  | openTCPCall
deriving DecidableEq

/-- Recognizer for the `openTCP`-invocation event. -/
def MgrEvent.isOpenTCP : MgrEvent → Bool
  | .openTCPCall => true
  | _ => false

/-- The connection-manager state: the connection flag, the status-poll
timer handle (`null` when polling is off), a counter minting timer ids,
and the live editor model owned by the external `EditorManager`
collaborator (abstract type `M`). -/
structure MgrState (M : Type) where
  externalApplicationConnected : Bool
  idStatusInterval : Option Nat
  nextTimerId : Nat
  editorModel : M
deriving DecidableEq

/-- `stopStatusInterval()`: clear the poll timer if it is running. -/
def stopStatusInterval {M : Type} (s : MgrState M) : MgrState M :=
  if s.idStatusInterval.isSome then { s with idStatusInterval := none } else s

/-- `startStatusInterval()`: start the poll timer if it is not running. -/
def startStatusInterval {M : Type} (s : MgrState M) : MgrState M :=
  if s.idStatusInterval = none then
    { s with idStatusInterval := some s.nextTimerId
             nextTimerId := s.nextTimerId + 1 }
  else s

/-- A foreground manager operation: a state transformer together with the
events it emits (its fetch call always resolves to a processed response,
per the transport model above). -/
def MgrOp (M : Type) := MgrState M → MgrState M × List MgrEvent

/-- `invokeFetchAction(fetchCall)`: the serializing guard — stop status
polling, run the operation, then restore status polling. -/
def invokeFetchAction {M : Type} (op : MgrOp M) (s : MgrState M) :
    MgrState M × List MgrEvent :=
  let s1 := stopStatusInterval s
  let r := op s1
  (startStatusInterval r.1, r.2)

/-- `openTCP()`: ask the backend to open the listen socket; on a 2xx
response mark the external application connected; always surface the
response body. -/
def openTCP {M : Type} (status : RStatus) (body : String) : MgrOp M :=
  fun s =>
    if status = .ok then
      ({ s with externalApplicationConnected := true },
        [.openTCPCall, .setConnected true, .alert body])
    else (s, [.openTCPCall, .alert body])

/-- `requestSpecification()`: on HTTP 200, parse the body (`parsed` is the
outcome of `JSON.parse`, a `SyntaxError` message on the left); a parse
failure alerts `Not a proper JSON file.` and returns without touching any
state; otherwise the specification is validated by the editor collaborator
(`validate`) and applied to the live model (`update`) only when validation
reports no errors, with the error list surfaced otherwise.  On 503 the
connection flag is dropped and the body surfaced; on 400 the body is
surfaced. -/
def requestSpecification {M S : Type} (validate : S → List String)
    (update : M → S → M) (status : RStatus) (body : String)
    (parsed : Except String S) : MgrOp M :=
  fun s =>
    match status with
    | .ok =>
      match parsed with
      | .error e => (s, [.alert ("Not a proper JSON file.\n" ++ e)])
      | .ok spec =>
        let errors := validate spec
        if errors.isEmpty then
          ({ s with editorModel := update s.editorModel spec },
            [.alert "Loaded successfully", .alert "Specification loaded"])
        else (s, [.alertList errors, .alert "Specification loaded"])
    | .serviceUnavailable =>
      ({ s with externalApplicationConnected := false },
        [.setConnected false, .alert body])
    | .badRequest => (s, [.alert body])

/-- `initializeConnection()`: drop the connection flag, announce the wait,
run `openTCP` under the serializing guard, and when the flag came up run
`requestSpecification` under the guard as well. -/
def initializeConnection {M S : Type} (validate : S → List String)
    (update : M → S → M) (tcpStatus : RStatus) (tcpBody : String)
    (specStatus : RStatus) (specBody : String)
    (parsed : Except String S) : MgrOp M :=
  fun s =>
    let s0 : MgrState M := { s with externalApplicationConnected := false }
    let ev0 : List MgrEvent :=
      [.setConnected false, .alert "Waiting for the application to connect..."]
    let r1 := invokeFetchAction (openTCP tcpStatus tcpBody) s0
    if r1.1.externalApplicationConnected then
      let r2 := invokeFetchAction
        (requestSpecification validate update specStatus specBody parsed) r1.1
      (r2.1, ev0 ++ r1.2 ++ r2.2)
    else (r1.1, ev0 ++ r1.2)

/-- `checkStatus()`: the body of one poll tick — when `get_status` reports
the external application unavailable, run `initializeConnection` under the
serializing guard; otherwise do nothing. -/
def checkStatus {M S : Type} (validate : S → List String)
    (update : M → S → M) (pollStatus : RStatus) (tcpStatus : RStatus)
    (tcpBody : String) (specStatus : RStatus) (specBody : String)
    (parsed : Except String S) (s : MgrState M) :
    MgrState M × List MgrEvent :=
  if pollStatus = .serviceUnavailable then
    invokeFetchAction
      (initializeConnection validate update tcpStatus tcpBody specStatus
        specBody parsed) s
  else (s, [])

/-! ## Well-formedness of factory-built instances -/

/-- One live `inputs` entry of a factory-built node: a port carries an
`input`/`inout` direction and its key is that direction's string, an
underscore, and the port name; a property interface is keyed
`property_{name}`. -/
def wfInputEntry : String × IntfState → Prop
  | (k, s) =>
    if s.port then
      ∃ d, s.direction = some d ∧ (d = Dir.input ∨ d = Dir.inout) ∧
        k = d.str ++ "_" ++ dropStr k (d.str.length + 1)
    else k = "property_" ++ dropStr k 9

/-- One live `outputs` entry of a factory-built node: an output port keyed
`output_{name}`. -/
def wfOutputEntry : String × IntfState → Prop
  | (k, s) =>
    s.port = true ∧ s.direction = some Dir.output ∧
      k = "output_" ++ dropStr k 7

instance : DecidablePred wfInputEntry := fun kv => by
  unfold wfInputEntry
  cases kv.2.port <;> simp only [Bool.false_eq_true, if_false, if_true] <;>
    infer_instance

instance : DecidablePred wfOutputEntry := fun kv => by
  unfold wfOutputEntry; infer_instance

/-- A factory-built node instance: distinct keys overall, well-formed input
entries, well-formed output entries. -/
def wfInst (inst : NodeInst) : Prop :=
  ((inst.inputs ++ inst.outputs).map Prod.fst).Nodup ∧
    (∀ kv ∈ inst.inputs, wfInputEntry kv) ∧
    ∀ kv ∈ inst.outputs, wfOutputEntry kv

instance : DecidablePred wfInst := fun inst => by
  unfold wfInst; infer_instance

/-- Substring containment witnessed by a concatenation split. -/
def strContains (big small : String) : Prop :=
  ∃ x y, big = x ++ small ++ y

/-! ## Concrete sample data used by witnesses -/

/-- A raw interface list with an input/inout name collision (`a`), a
surviving inout (`b`), and an output (`c`). -/
def sampleRawList : List RawIntf :=
  [⟨"a", .single "t", .input, none, none, none⟩,
    ⟨"a", .single "t", .inout, none, none, none⟩,
    ⟨"b", .single "t", .inout, none, none, none⟩,
    ⟨"c", .single "t", .output, none, none, none⟩]

/-- A small factory-built node instance: one input port, one property with a
defined value, one output port. -/
def sampleInst : NodeInst :=
  { type := "TestNode"
    id := "node-1"
    title := "Test node"
    position := some ⟨3, 4⟩
    inputs :=
      [("input_a",
        ⟨"id-a", none, some .input, some .left, true⟩),
        ("property_p",
          ⟨"id-p", some (.num 7), none, none, false⟩)]
    outputs :=
      [("output_o",
        ⟨"id-o", none, some .output, some .right, true⟩)] }

/-- The sample instance with the property value left `undefined`. -/
def sampleInstUndef : NodeInst :=
  { sampleInst with
    inputs :=
      [("input_a",
        ⟨"id-a", none, some .input, some .left, true⟩),
        ("property_p",
          ⟨"id-p", none, none, none, false⟩)] }

/-- A portable node state carrying one interface name unknown to
`sampleInst`. -/
def sampleBadState : PortableNode :=
  { type := "TestNode"
    id := "node-1"
    name := some "Test node"
    position := some ⟨3, 4⟩
    interfaces := some [⟨"zzz", "id-z", some .input, some .left⟩]
    properties := some [] }

/-! ## Basic lemmas: strings -/

theorem strExt {a b : String} (h : a.data = b.data) : a = b := by
  cases a; cases b; exact congrArg String.mk h

theorem strPrefixCancel (p a b : String) (h : p ++ a = p ++ b) : a = b := by
  have hd := congrArg String.data h
  rw [String.data_append, String.data_append] at hd
  exact strExt (List.append_cancel_left hd)

theorem strPrefixNe (p q a b : String) (hl : p.length = q.length)
    (hne : p ≠ q) : p ++ a ≠ q ++ b := by
  intro h
  have hd := congrArg String.data h
  rw [String.data_append, String.data_append] at hd
  have hll : p.data.length = q.data.length := hl
  have := List.append_inj hd hll
  exact hne (strExt this.1)

theorem jsIdx_ofNat (len n : Nat) : jsIdx len (Int.ofNat n) = min len n := by
  unfold jsIdx
  simp only [Int.ofNat_eq_coe]
  have : ¬ ((n : Int) < 0) := by omega
  rw [if_neg this]
  omega

theorem drop_min {α : Type} (l : List α) (n : Nat) :
    l.drop (min l.length n) = l.drop n := by
  rcases Nat.le_total l.length n with h | h
  · rw [Nat.min_eq_left h, List.drop_eq_nil_of_le h, List.drop_eq_nil_of_le le_rfl]
  · rw [Nat.min_eq_right h]

theorem jsSliceFrom_ofNat (s : String) (n : Nat) :
    jsSliceFrom s (Int.ofNat n) = dropStr s n := by
  unfold jsSliceFrom jsSlice2 dropStr
  rw [jsIdx_ofNat, jsIdx_ofNat, Nat.min_self, List.take_length, drop_min]

theorem dropStr_strip (a n : String) :
    dropStr (a ++ "_" ++ n) (a.length + 1) = n := by
  unfold dropStr
  apply strExt
  show ((a ++ "_" ++ n).data).drop (a.length + 1) = n.data
  rw [String.data_append, String.data_append]
  have hlen : (a.data ++ ("_" : String).data).length = a.length + 1 := by
    show (a.data ++ ['_']).length = a.data.length + 1
    rw [List.length_append]
    rfl
  rw [List.append_assoc] at *
  rw [← List.append_assoc]
  rw [← hlen, List.drop_left]

theorem strip_append (a n : String) :
    a ++ "_" ++ (dropStr (a ++ "_" ++ n) (a.length + 1)) = a ++ "_" ++ n := by
  rw [dropStr_strip]

/-! ## Basic lemmas: decimal strings -/

theorem digitsRev_zero : digitsRev 0 = [] := by
  rw [digitsRev]
  rfl

theorem digitsRev_pos {n : Nat} (h : n ≠ 0) :
    digitsRev n = n % 10 :: digitsRev (n / 10) := by
  rw [digitsRev]
  simp [h]

theorem digitsRev_lt (n : Nat) : ∀ d ∈ digitsRev n, d < 10 := by
  induction n using Nat.strong_induction_on with
  | _ n ih =>
    intro d hd
    by_cases hn : n = 0
    · rw [hn, digitsRev_zero] at hd
      exact absurd hd (List.not_mem_nil d)
    · rw [digitsRev_pos hn] at hd
      rcases List.mem_cons.1 hd with h | h
      · rw [h]
        exact Nat.mod_lt n (by decide)
      · exact ih (n / 10) (Nat.div_lt_self (Nat.pos_of_ne_zero hn) (by decide)) d h

theorem digitsRev_inj (m : Nat) : ∀ n, digitsRev m = digitsRev n → m = n := by
  induction m using Nat.strong_induction_on with
  | _ m ih =>
    intro n h
    by_cases hm : m = 0
    · by_cases hn : n = 0
      · rw [hm, hn]
      · rw [hm, digitsRev_zero, digitsRev_pos hn] at h
        exact absurd h.symm (List.cons_ne_nil _ _)
    · by_cases hn : n = 0
      · rw [hn, digitsRev_zero, digitsRev_pos hm] at h
        exact absurd h (List.cons_ne_nil _ _)
      · rw [digitsRev_pos hm, digitsRev_pos hn] at h
        have h1 : m % 10 = n % 10 := (List.cons.injEq _ _ _ _ ▸ h).1
        have h2 := (List.cons.injEq _ _ _ _ ▸ h).2
        have h3 : m / 10 = n / 10 :=
          ih (m / 10) (Nat.div_lt_self (Nat.pos_of_ne_zero hm) (by decide)) _ h2
        omega

theorem digitChar_inj {d e : Nat} (hd : d < 10) (he : e < 10)
    (h : Nat.digitChar d = Nat.digitChar e) : d = e :=
  (by decide :
    ∀ a : Fin 10, ∀ b : Fin 10,
      Nat.digitChar a.1 = Nat.digitChar b.1 → a.1 = b.1) ⟨d, hd⟩ ⟨e, he⟩ h

theorem map_digitChar_inj : ∀ l m : List Nat, (∀ x ∈ l, x < 10) →
    (∀ x ∈ m, x < 10) → l.map Nat.digitChar = m.map Nat.digitChar → l = m := by
  intro l
  induction l with
  | nil =>
    intro m _ _ h
    cases m with
    | nil => rfl
    | cons b bs => exact absurd h.symm (by simp)
  | cons a as ihl =>
    intro m hl hm h
    cases m with
    | nil => exact absurd h (by simp)
    | cons b bs =>
      simp only [List.map_cons, List.cons.injEq] at h
      have ha : a = b := digitChar_inj (hl a (by simp)) (hm b (by simp)) h.1
      have hs : as = bs := ihl bs (fun x hx => hl x (by simp [hx]))
        (fun x hx => hm x (by simp [hx])) h.2
      rw [ha, hs]

theorem jsNatStr_inj : Function.Injective jsNatStr := by
  intro m n h
  unfold jsNatStr at h
  by_cases hm : m = 0 <;> by_cases hn : n = 0
  · omega
  · rw [if_pos hm, if_neg hn] at h
    have hd := congrArg String.data h
    have h0 : ("0" : String).data = ['0'] := rfl
    rw [h0] at hd
    have hrev := congrArg List.reverse hd
    simp only [List.reverse_reverse] at hrev
    have : (digitsRev n).map Nat.digitChar = [Nat.digitChar 0] := by
      rw [← hrev]
      rfl
    have hn0 : digitsRev n = [0] :=
      map_digitChar_inj (digitsRev n) [0] (digitsRev_lt n)
        (by intro x hx; simp at hx; omega) this
    rw [digitsRev_pos hn] at hn0
    have h1 : n % 10 = 0 := (List.cons.injEq _ _ _ _ ▸ hn0).1
    have h2 : digitsRev (n / 10) = [] := (List.cons.injEq _ _ _ _ ▸ hn0).2
    have h3 : n / 10 = 0 := by
      by_contra hc
      rw [digitsRev_pos hc] at h2
      exact absurd h2 (List.cons_ne_nil _ _)
    omega
  · rw [if_neg hm, if_pos hn] at h
    have hd := congrArg String.data h
    have h0 : ("0" : String).data = ['0'] := rfl
    rw [h0] at hd
    have hrev := congrArg List.reverse hd
    simp only [List.reverse_reverse] at hrev
    have : (digitsRev m).map Nat.digitChar = [Nat.digitChar 0] := by
      rw [hrev]
      rfl
    have hm0 : digitsRev m = [0] :=
      map_digitChar_inj (digitsRev m) [0] (digitsRev_lt m)
        (by intro x hx; simp at hx; omega) this
    rw [digitsRev_pos hm] at hm0
    have h1 : m % 10 = 0 := (List.cons.injEq _ _ _ _ ▸ hm0).1
    have h2 : digitsRev (m / 10) = [] := (List.cons.injEq _ _ _ _ ▸ hm0).2
    have h3 : m / 10 = 0 := by
      by_contra hc
      rw [digitsRev_pos hc] at h2
      exact absurd h2 (List.cons_ne_nil _ _)
    omega
  · rw [if_neg hm, if_neg hn] at h
    have hd := congrArg String.data h
    have hrev := congrArg List.reverse hd
    simp only [List.reverse_reverse] at hrev
    exact digitsRev_inj m n
      (map_digitChar_inj _ _ (digitsRev_lt m) (digitsRev_lt n) hrev)

/-! ## Basic lemmas: JS object maps -/

theorem lookup_cons_self {α : Type} (k : String) (v : α)
    (l : List (String × α)) : ((k, v) :: l).lookup k = some v := by
  simp [List.lookup]

theorem lookup_cons_ne {α : Type} {k k' : String} (v : α)
    (l : List (String × α)) (h : k' ≠ k) :
    ((k, v) :: l).lookup k' = l.lookup k' := by
  rw [List.lookup_cons]
  simp [beq_eq_false_iff_ne.2 h]

theorem lookup_eq_none_of_not_mem {α : Type} {k : String}
    {l : List (String × α)} (h : k ∉ l.map Prod.fst) : l.lookup k = none := by
  induction l with
  | nil => rfl
  | cons kv tl ih =>
    simp only [List.map_cons, List.mem_cons] at h
    push_neg at h
    obtain ⟨⟨k', v⟩, hkv⟩ : ∃ p : String × α, p = kv := ⟨kv, rfl⟩
    subst hkv
    rw [lookup_cons_ne v tl (by simpa using h.1)]
    exact ih h.2

theorem lookup_isSome_iff_mem {α : Type} (k : String) (l : List (String × α)) :
    (l.lookup k).isSome = true ↔ k ∈ l.map Prod.fst := by
  induction l with
  | nil => simp [List.lookup_nil]
  | cons kv tl ih =>
    obtain ⟨⟨k', v⟩, hkv⟩ : ∃ p : String × α, p = kv := ⟨kv, rfl⟩
    subst hkv
    by_cases h : k = k'
    · subst h
      rw [lookup_cons_self]
      simp
    · rw [lookup_cons_ne v tl h]
      simp [ih, h]

theorem hasKey_iff_mem {α : Type} (k : String) (l : List (String × α)) :
    hasKey l k = true ↔ k ∈ l.map Prod.fst := by
  unfold hasKey
  exact lookup_isSome_iff_mem k l

theorem lookup_append_left {α : Type} {k : String} {a : List (String × α)}
    (b : List (String × α)) (h : (a.lookup k).isSome) :
    (a ++ b).lookup k = a.lookup k := by
  induction a with
  | nil => simp [List.lookup_nil] at h
  | cons kv tl ih =>
    obtain ⟨⟨k', v⟩, hkv⟩ : ∃ p : String × α, p = kv := ⟨kv, rfl⟩
    subst hkv
    by_cases hk : k = k'
    · subst hk
      rw [List.cons_append, lookup_cons_self, lookup_cons_self]
    · rw [List.cons_append, lookup_cons_ne v (tl ++ b) hk, lookup_cons_ne v tl hk]
      rw [lookup_cons_ne v tl hk] at h
      exact ih h

theorem lookup_append_right {α : Type} {k : String} {a : List (String × α)}
    (b : List (String × α)) (h : a.lookup k = none) :
    (a ++ b).lookup k = b.lookup k := by
  induction a with
  | nil => simp
  | cons kv tl ih =>
    obtain ⟨⟨k', v⟩, hkv⟩ : ∃ p : String × α, p = kv := ⟨kv, rfl⟩
    subst hkv
    by_cases hk : k = k'
    · subst hk
      rw [lookup_cons_self] at h
      exact absurd h (by simp)
    · rw [List.cons_append, lookup_cons_ne v (tl ++ b) hk]
      rw [lookup_cons_ne v tl hk] at h
      exact ih h

theorem upsert_of_not_hasKey {α : Type} {m : List (String × α)} {k : String}
    (v : α) (h : hasKey m k = false) : upsert m k v = m ++ [(k, v)] := by
  unfold upsert
  rw [h]
  simp

theorem keys_map_update {α : Type} (m : List (String × α)) (k : String)
    (v : α) :
    (m.map (fun kv => if kv.1 = k then (kv.1, v) else kv)).map Prod.fst
      = m.map Prod.fst := by
  simp only [List.map_map]
  apply List.map_congr_left
  intro kv _
  by_cases hc : kv.1 = k <;> simp [Function.comp, hc]

theorem keys_upsert {α : Type} (m : List (String × α)) (k : String) (v : α) :
    (upsert m k v).map Prod.fst =
      if hasKey m k then m.map Prod.fst else m.map Prod.fst ++ [k] := by
  unfold upsert
  by_cases h : hasKey m k
  · rw [if_pos h, if_pos h, keys_map_update]
  · rw [if_neg h, if_neg h]
    simp

theorem hasKey_upsert_iff {α : Type} (m : List (String × α)) (k k' : String)
    (v : α) :
    hasKey (upsert m k v) k' = true ↔ (hasKey m k' = true ∨ k' = k) := by
  rw [hasKey_iff_mem, keys_upsert]
  by_cases h : hasKey m k
  · rw [if_pos h, hasKey_iff_mem]
    constructor
    · exact fun hm => Or.inl hm
    · rintro (hm | hEq)
      · exact hm
      · rw [hEq]
        exact (hasKey_iff_mem k m).1 h
  · rw [if_neg h, hasKey_iff_mem]
    simp

theorem objMerge_disjoint {α : Type} (a b : List (String × α))
    (h : ∀ k, hasKey a k = false ∨ hasKey b k = false) :
    objMerge a b = a ++ b := by
  unfold objMerge
  have ha : a.map (fun kv =>
      match b.lookup kv.1 with
      | some v => (kv.1, v)
      | none => kv) = a := by
    conv_rhs => rw [← List.map_id a]
    apply List.map_congr_left
    intro kv hkv
    have hk : hasKey a kv.1 = true :=
      (hasKey_iff_mem _ _).2 (List.mem_map_of_mem Prod.fst hkv)
    have hbf : hasKey b kv.1 = false := by
      rcases h kv.1 with h1 | h1
      · rw [h1] at hk
        cases hk
      · exact h1
    have hnone : b.lookup kv.1 = none := by
      unfold hasKey at hbf
      simpa using hbf
    simp [hnone]
  have hb : b.filter (fun kv => !(hasKey a kv.1)) = b := by
    apply List.filter_eq_self.mpr
    intro kv hkv
    have hk : hasKey b kv.1 = true :=
      (hasKey_iff_mem _ _).2 (List.mem_map_of_mem Prod.fst hkv)
    have haf : hasKey a kv.1 = false := by
      rcases h kv.1 with h1 | h1
      · exact h1
      · rw [h1] at hk
        cases hk
    rw [haf]
    rfl
  rw [ha, hb]

theorem keys_objMerge {α : Type} (a b : List (String × α)) :
    (objMerge a b).map Prod.fst =
      a.map Prod.fst ++ (b.filter (fun kv => !(hasKey a kv.1))).map Prod.fst := by
  unfold objMerge
  rw [List.map_append]
  congr 1
  simp only [List.map_map]
  apply List.map_congr_left
  intro kv _
  rcases hb : b.lookup kv.1 with _ | v <;> simp [Function.comp, hb]

theorem hasKey_objMerge {α : Type} (a b : List (String × α)) (k : String) :
    hasKey (objMerge a b) k = true ↔
      (hasKey a k = true ∨ hasKey b k = true) := by
  rw [hasKey_iff_mem, keys_objMerge, List.mem_append, hasKey_iff_mem,
    hasKey_iff_mem]
  constructor
  · rintro (hm | hm)
    · exact Or.inl hm
    · rcases List.mem_map.1 hm with ⟨kv, hkv, hfst⟩
      exact Or.inr (hfst ▸ List.mem_map_of_mem Prod.fst (List.mem_of_mem_filter hkv))
  · rintro (hm | hm)
    · exact Or.inl hm
    · by_cases hak : k ∈ a.map Prod.fst
      · exact Or.inl hak
      · right
        rcases List.mem_map.1 hm with ⟨kv, hkv, hfst⟩
        rw [← hfst]
        apply List.mem_map_of_mem Prod.fst
        apply List.mem_filter.2
        refine ⟨hkv, ?_⟩
        have : hasKey a kv.1 = false := by
          rcases hh : hasKey a kv.1 with _ | _
          · rfl
          · exact absurd (hfst ▸ (hasKey_iff_mem kv.1 a).1 hh) hak
        rw [this]
        rfl

theorem strWrapCancel (p s : String) {a b : String}
    (h : p ++ a ++ s = p ++ b ++ s) : a = b := by
  have hd := congrArg String.data h
  simp only [String.data_append] at hd
  rw [List.append_assoc p.data, List.append_assoc p.data] at hd
  have h1 := List.append_cancel_left hd
  exact strExt (List.append_cancel_right h1)

theorem strPrefixNeHead {p q : String} (a b : String) {c₁ c₂ : Char}
    {t₁ t₂ : List Char} (hp : p.data = c₁ :: t₁) (hq : q.data = c₂ :: t₂)
    (hne : c₁ ≠ c₂) : p ++ a ≠ q ++ b := by
  intro h
  have hd := congrArg String.data h
  simp only [String.data_append, hp, hq, List.cons_append,
    List.cons.injEq] at hd
  exact hne hd.1

theorem mem_keys_rename {α : Type} (pre n : String) (m : List (String × α)) :
    (pre ++ n) ∈ (m.map (fun kv => (pre ++ kv.1, kv.2))).map Prod.fst ↔
      n ∈ m.map Prod.fst := by
  simp only [List.map_map, List.mem_map, Function.comp]
  constructor
  · rintro ⟨kv, hkv, hEq⟩
    exact ⟨kv, hkv, strPrefixCancel pre _ _ hEq⟩
  · rintro ⟨kv, hkv, hEq⟩
    exact ⟨kv, hkv, by rw [hEq]⟩

theorem hasKey_rename {α : Type} (pre n : String) (m : List (String × α)) :
    hasKey (m.map (fun kv => (pre ++ kv.1, kv.2))) (pre ++ n) = hasKey m n := by
  rcases hm : hasKey m n with _ | _
  · rw [Bool.eq_false_iff]
    intro hc
    rw [hasKey_iff_mem, mem_keys_rename, ← hasKey_iff_mem, hm] at hc
    cases hc
  · rw [hasKey_iff_mem, mem_keys_rename, ← hasKey_iff_mem, hm]

theorem not_hasKey_rename_of_ne {α : Type} {pre1 pre2 : String}
    (n : String) (m : List (String × α))
    (hno : ∀ x y : String, pre1 ++ x ≠ pre2 ++ y) :
    hasKey (m.map (fun kv => (pre2 ++ kv.1, kv.2))) (pre1 ++ n) = false := by
  rw [Bool.eq_false_iff]
  intro hc
  rw [hasKey_iff_mem] at hc
  simp only [List.map_map, List.mem_map, Function.comp] at hc
  rcases hc with ⟨kv, _, hEq⟩
  exact hno n kv.1 hEq.symm

theorem hasKey_filterKey {α : Type} (q : String → Bool)
    (m : List (String × α)) (n : String) :
    hasKey (m.filter (fun kv => q kv.1)) n = true ↔
      (hasKey m n = true ∧ q n = true) := by
  rw [hasKey_iff_mem, hasKey_iff_mem]
  simp only [List.mem_map, List.mem_filter]
  constructor
  · rintro ⟨kv, ⟨hkv, hq⟩, hfst⟩
    exact ⟨⟨kv, hkv, hfst⟩, hfst ▸ hq⟩
  · rintro ⟨⟨kv, hkv, hfst⟩, hq⟩
    exact ⟨kv, ⟨hkv, hfst ▸ hq⟩, hfst⟩

/-! ## C3: array-range expansion -/

theorem createInterface_name (io : RawIntf) (nn : String) :
    createInterface io (some nn) = { createInterface io none with name := nn } := by
  simp [createInterface]

/-- C3: for every raw interface entry carrying an array range `[lo, hi)`, the
resolver emits exactly `hi - lo` distinct port descriptors named `name[lo]`
through `name[hi-1]` (pairwise-distinct keys), each inheriting every field of
the entry's descriptor other than the name; an entry without an array range
yields exactly one descriptor under its own name. -/
theorem expandEntry_spec (io : RawIntf) :
    (∀ lo hi, io.array = some (lo, hi) →
      (expandEntry io).length = hi - lo ∧
      expandEntry io = (List.range' lo (hi - lo)).map (fun j =>
        (io.name ++ "[" ++ jsNatStr j ++ "]",
          { createInterface io none with
              name := io.name ++ "[" ++ jsNatStr j ++ "]" })) ∧
      ((expandEntry io).map Prod.fst).Nodup) ∧
    (io.array = none → expandEntry io = [(io.name, createInterface io none)]) := by
  have hinj : Function.Injective
      (fun j => io.name ++ "[" ++ jsNatStr j ++ "]") := by
    intro j k hjk
    exact jsNatStr_inj (strWrapCancel (io.name ++ "[") "]" hjk)
  constructor
  · intro lo hi h
    have hexp : expandEntry io = (List.range' lo (hi - lo)).map (fun j =>
        (io.name ++ "[" ++ jsNatStr j ++ "]",
          createInterface io (some (io.name ++ "[" ++ jsNatStr j ++ "]")))) := by
      unfold expandEntry
      rw [h]
    refine ⟨?_, ?_, ?_⟩
    · rw [hexp, List.length_map, List.length_range']
    · rw [hexp]
      apply List.map_congr_left
      intro j _
      rw [createInterface_name]
    · rw [hexp]
      simp only [List.map_map]
      apply List.Nodup.map
      · intro j k hjk
        exact hinj (by simpa [Function.comp] using hjk)
      · exact List.nodup_range' lo (hi - lo)
  · intro h
    unfold expandEntry
    rw [h]

theorem expandEntry_spec_witness :
    ((expandEntry ⟨"p", .single "t", .input, none, none, some (2, 4)⟩).length
        = 4 - 2 ∧
      expandEntry ⟨"p", .single "t", .input, none, none, some (2, 4)⟩ =
        (List.range' 2 (4 - 2)).map (fun j =>
          ("p" ++ "[" ++ jsNatStr j ++ "]",
            { createInterface ⟨"p", .single "t", .input, none, none,
                some (2, 4)⟩ none with
                name := "p" ++ "[" ++ jsNatStr j ++ "]" })) ∧
      ((expandEntry ⟨"p", .single "t", .input, none, none,
        some (2, 4)⟩).map Prod.fst).Nodup) ∧
    expandEntry ⟨"p", .single "t", .output, none, none, none⟩ =
      [("p", createInterface ⟨"p", .single "t", .output, none, none, none⟩
        none)] :=
  ⟨(expandEntry_spec ⟨"p", .single "t", .input, none, none, some (2, 4)⟩).1
      2 4 rfl,
    (expandEntry_spec ⟨"p", .single "t", .output, none, none, none⟩).2 rfl⟩

/-! ## C4: inout resolution -/

theorem hasKey_append {α : Type} (a b : List (String × α)) (k : String) :
    hasKey (a ++ b) k = (hasKey a k || hasKey b k) := by
  rcases h : (hasKey a k || hasKey b k) with _ | _
  · rw [Bool.eq_false_iff]
    intro hc
    rw [hasKey_iff_mem, List.map_append, List.mem_append] at hc
    rcases hc with hc | hc
    · rw [← hasKey_iff_mem] at hc
      rw [hc] at h
      cases h
    · rw [← hasKey_iff_mem] at hc
      rw [hc] at h
      simp at h
  · rcases Bool.or_eq_true_iff.1 h with h1 | h1
    · rw [hasKey_iff_mem] at h1 ⊢
      rw [List.map_append, List.mem_append]
      exact Or.inl h1
    · rw [hasKey_iff_mem] at h1 ⊢
      rw [List.map_append, List.mem_append]
      exact Or.inr h1

theorem hasKey_rename_shape {α : Type} {pre k : String}
    {m : List (String × α)}
    (h : hasKey (m.map (fun kv => (pre ++ kv.1, kv.2))) k = true) :
    ∃ x, k = pre ++ x ∧ hasKey m x = true := by
  rw [hasKey_iff_mem] at h
  simp only [List.map_map, List.mem_map, Function.comp] at h
  rcases h with ⟨kv, hkv, hEq⟩
  exact ⟨kv.1, hEq.symm,
    (hasKey_iff_mem _ _).2 (List.mem_map_of_mem Prod.fst hkv)⟩

/-- C4: an inout entry whose name collides with an input or output entry is
discarded — exactly one port survives under that name, under the
pre-existing direction; a surviving inout entry is merged into the returned
inputs map; the two returned maps are keywise disjoint; and together they
are exactly the renamed input-like and output buckets. -/
theorem parseIntefaces_spec (l : List RawIntf) :
    ((parseIntefaces l).1 =
      ((buildBuckets l).inout.filter
        (fun kv => !(hasKey (buildBuckets l).output kv.1) &&
          !(hasKey (buildBuckets l).input kv.1))).map
            (fun kv => ("inout_" ++ kv.1, kv.2)) ++
      (buildBuckets l).input.map (fun kv => ("input_" ++ kv.1, kv.2))) ∧
    ((parseIntefaces l).2 =
      (buildBuckets l).output.map (fun kv => ("output_" ++ kv.1, kv.2))) ∧
    (∀ n, hasKey (buildBuckets l).inout n = true →
      (hasKey (buildBuckets l).input n = true ∨
        hasKey (buildBuckets l).output n = true) →
      hasKey (parseIntefaces l).1 ("inout_" ++ n) = false ∧
      hasKey (parseIntefaces l).2 ("inout_" ++ n) = false ∧
      hasKey (parseIntefaces l).1 ("input_" ++ n) =
        hasKey (buildBuckets l).input n ∧
      hasKey (parseIntefaces l).2 ("output_" ++ n) =
        hasKey (buildBuckets l).output n) ∧
    (∀ n, hasKey (buildBuckets l).inout n = true →
      hasKey (buildBuckets l).input n = false →
      hasKey (buildBuckets l).output n = false →
      hasKey (parseIntefaces l).1 ("inout_" ++ n) = true) ∧
    (∀ k, ¬(hasKey (parseIntefaces l).1 k = true ∧
      hasKey (parseIntefaces l).2 k = true)) := by
  have hne_oi_ip : ∀ x y : String, ("inout_" ++ x) ≠ ("input_" ++ y) :=
    fun x y => strPrefixNe "inout_" "input_" x y rfl (by decide)
  have hne_ip_oi : ∀ x y : String, ("input_" ++ x) ≠ ("inout_" ++ y) :=
    fun x y => strPrefixNe "input_" "inout_" x y rfl (by decide)
  have hne_oi_op : ∀ x y : String, ("inout_" ++ x) ≠ ("output_" ++ y) :=
    fun x y => strPrefixNeHead x y (rfl :
      ("inout_" : String).data = 'i' :: ['n', 'o', 'u', 't', '_'])
      (rfl : ("output_" : String).data = 'o' :: ['u', 't', 'p', 'u', 't', '_'])
      (by decide)
  have hne_ip_op : ∀ x y : String, ("input_" ++ x) ≠ ("output_" ++ y) :=
    fun x y => strPrefixNeHead x y (rfl :
      ("input_" : String).data = 'i' :: ['n', 'p', 'u', 't', '_'])
      (rfl : ("output_" : String).data = 'o' :: ['u', 't', 'p', 'u', 't', '_'])
      (by decide)
  set t := buildBuckets l with ht
  set flt := t.inout.filter
    (fun kv => !(hasKey t.output kv.1) && !(hasKey t.input kv.1)) with hflt
  set ren1 := flt.map (fun kv => (("inout_" ++ kv.1 : String), kv.2)) with hren1
  set ren2 := t.input.map (fun kv => (("input_" ++ kv.1 : String), kv.2)) with hren2
  set ren3 := t.output.map (fun kv => (("output_" ++ kv.1 : String), kv.2)) with hren3
  have hdef : parseIntefaces l = (objMerge ren1 ren2, ren3) := rfl
  have hdisj12 : ∀ k, hasKey ren1 k = false ∨ hasKey ren2 k = false := by
    intro k
    by_cases h1 : hasKey ren1 k = true
    · right
      rcases hasKey_rename_shape h1 with ⟨x, hx, _⟩
      rw [hx, hren2]
      exact not_hasKey_rename_of_ne x t.input hne_oi_ip
    · exact Or.inl (Bool.eq_false_iff.2 h1)
  have h1eq : (parseIntefaces l).1 = ren1 ++ ren2 := by
    rw [hdef]
    exact objMerge_disjoint ren1 ren2 hdisj12
  have h2eq : (parseIntefaces l).2 = ren3 := by
    rw [hdef]
  refine ⟨h1eq, h2eq, ?_, ?_, ?_⟩
  · intro n hio hcol
    have hfltn : hasKey flt n = false := by
      rw [Bool.eq_false_iff]
      intro hc
      rw [hflt] at hc
      have := ((hasKey_filterKey
        (fun x => !(hasKey t.output x) && !(hasKey t.input x))
        t.inout n).1 hc).2
      rcases hcol with hc1 | hc1 <;> rw [hc1] at this <;> simp at this
    refine ⟨?_, ?_, ?_, ?_⟩
    · rw [h1eq, hasKey_append]
      rw [hren1, hasKey_rename "inout_" n flt, hfltn]
      rw [hren2, not_hasKey_rename_of_ne n t.input hne_oi_ip]
      rfl
    · rw [h2eq, hren3]
      exact not_hasKey_rename_of_ne n t.output hne_oi_op
    · rw [h1eq, hasKey_append]
      rw [hren1, not_hasKey_rename_of_ne n flt hne_ip_oi]
      rw [hren2, hasKey_rename "input_" n t.input]
      rfl
    · rw [h2eq, hren3, hasKey_rename "output_" n t.output]
  · intro n hio hni hno
    have hfltn : hasKey flt n = true := by
      rw [hflt]
      exact (hasKey_filterKey
        (fun x => !(hasKey t.output x) && !(hasKey t.input x))
        t.inout n).2 ⟨hio, by rw [hni, hno]; rfl⟩
    rw [h1eq, hasKey_append, hren1, hasKey_rename "inout_" n flt, hfltn]
    rfl
  · intro k ⟨hk1, hk2⟩
    rw [h2eq] at hk2
    rcases hasKey_rename_shape hk2 with ⟨y, hy, _⟩
    rw [h1eq, hasKey_append, Bool.or_eq_true_iff] at hk1
    rcases hk1 with hk1 | hk1
    · rcases hasKey_rename_shape hk1 with ⟨x, hx, _⟩
      exact hne_oi_op x y (hx ▸ hy)
    · rcases hasKey_rename_shape hk1 with ⟨x, hx, _⟩
      exact hne_ip_op x y (hx ▸ hy)

theorem parseIntefaces_spec_witness :
    hasKey (buildBuckets sampleRawList).inout "a" = true ∧
    hasKey (parseIntefaces sampleRawList).1 ("inout_" ++ "a") = false ∧
    hasKey (parseIntefaces sampleRawList).1 ("input_" ++ "a") =
      hasKey (buildBuckets sampleRawList).input "a" ∧
    hasKey (parseIntefaces sampleRawList).1 ("inout_" ++ "b") = true ∧
    ¬(hasKey (parseIntefaces sampleRawList).1 "output_c" = true ∧
      hasKey (parseIntefaces sampleRawList).2 "output_c" = true) :=
  ⟨by decide,
    ((parseIntefaces_spec sampleRawList).2.2.1 "a" (by decide)
      (Or.inl (by decide))).1,
    ((parseIntefaces_spec sampleRawList).2.2.1 "a" (by decide)
      (Or.inl (by decide))).2.2.1,
    (parseIntefaces_spec sampleRawList).2.2.2.1 "b" (by decide) (by decide)
      (by decide),
    (parseIntefaces_spec sampleRawList).2.2.2.2 "output_c"⟩

/-! ## C8: the save partition -/

theorem save_fold_partition (entries : List (String × IntfState)) :
    ∀ acc : List PortableIntf × List PortableProp,
    entries.foldl
      (fun (acc : List PortableIntf × List PortableProp) kv =>
        if kv.2.port then (acc.1 ++ [savePortRec kv.1 kv.2], acc.2)
        else (acc.1, acc.2 ++ [savePropRec kv.1 kv.2])) acc =
      (acc.1 ++ (entries.filter (fun kv => kv.2.port)).map
        (fun kv => savePortRec kv.1 kv.2),
      acc.2 ++ (entries.filter (fun kv => !kv.2.port)).map
        (fun kv => savePropRec kv.1 kv.2)) := by
  induction entries with
  | nil => intro acc; simp
  | cons kv tl ih =>
    intro acc
    rcases hp : kv.2.port with _ | _ <;>
      simp only [List.foldl_cons, hp, if_true, if_false, Bool.false_eq_true,
        List.filter_cons, Bool.not_false, Bool.not_true, ih] <;>
      simp [hp]

/-- C8: `save` partitions the live port/property map into interface records
`{name, id, direction, side}` (name = key with the stored direction's prefix
stripped) and property records `{name, id, value}` (name = key with the
`property_` prefix stripped, an undefined value emitted as an explicit
null); the live `inputs`/`outputs` maps are not part of the portable state;
and the title is re-emitted under the portable field `name`. -/
theorem saveNode_spec (inst : NodeInst) :
    (saveNode inst).interfaces = some
      (((objMerge inst.inputs inst.outputs).filter (fun kv => kv.2.port)).map
        (fun kv => savePortRec kv.1 kv.2)) ∧
    (saveNode inst).properties = some
      (((objMerge inst.inputs inst.outputs).filter
          (fun kv => !kv.2.port)).map
        (fun kv => savePropRec kv.1 kv.2)) ∧
    (saveNode inst).name = some inst.title ∧
    (saveNode inst).inputs = [] ∧
    (saveNode inst).outputs = [] ∧
    (∀ (s : IntfState) (d : Dir) (nm : String), s.direction = some d →
      savePortRec (d.str ++ "_" ++ nm) s =
        { name := nm, id := s.id, direction := some d, side := s.side }) ∧
    (∀ (s : IntfState) (nm : String),
      savePropRec ("property_" ++ nm) s =
        { name := nm, id := s.id, value := some (s.value.getD .null) }) ∧
    (∀ (s : IntfState) (k : String), s.value = none →
      (savePropRec k s).value = some JValue.null) := by
  have hfold := save_fold_partition (objMerge inst.inputs inst.outputs)
    ([], [])
  refine ⟨?_, ?_, rfl, rfl, rfl, ?_, ?_, ?_⟩
  · show some ((objMerge inst.inputs inst.outputs).foldl _ ([], [])).1 = _
    rw [hfold]
    simp
  · show some ((objMerge inst.inputs inst.outputs).foldl _ ([], [])).2 = _
    rw [hfold]
    simp
  · intro s d nm hdir
    unfold savePortRec
    rw [hdir]
    show PortableIntf.mk
      (jsSliceFrom (d.str ++ "_" ++ nm) (Int.ofNat (dirLen (some d) + 1)))
      s.id (some d) s.side = _
    rw [jsSliceFrom_ofNat]
    show PortableIntf.mk (dropStr (d.str ++ "_" ++ nm) (d.str.length + 1))
      s.id (some d) s.side = _
    rw [dropStr_strip]
  · intro s nm
    unfold savePropRec
    have hsplit : ("property_" ++ nm : String) = "property" ++ "_" ++ nm := rfl
    rw [hsplit, jsSliceFrom_ofNat]
    show PortableProp.mk
      (dropStr ("property" ++ "_" ++ nm) (("property" : String).length + 1))
      s.id (some (s.value.getD .null)) = _
    rw [dropStr_strip]
  · intro s k hval
    unfold savePropRec
    rw [hval]
    rfl

theorem saveNode_spec_witness :
    (saveNode sampleInst).name = some sampleInst.title ∧
    savePortRec (Dir.input.str ++ "_" ++ "a")
        ⟨"id-a", none, some .input, some .left, true⟩ =
      { name := "a", id := "id-a", direction := some .input,
        side := some .left } ∧
    (savePropRec "property_p" ⟨"id-p", none, none, none, false⟩).value =
      some JValue.null :=
  ⟨(saveNode_spec sampleInst).2.2.1,
    (saveNode_spec sampleInst).2.2.2.2.2.1
      ⟨"id-a", none, some .input, some .left, true⟩ .input "a" rfl,
    (saveNode_spec sampleInst).2.2.2.2.2.2.2
      ⟨"id-p", none, none, none, false⟩ "property_p" rfl⟩

/-! ## C10: the uniform return contract of load -/

/-- C10: `load` always returns a list of strings — the discrepancy list when
it aborts (leaving the instance untouched) and the empty list when the state
is applied — so callers can branch uniformly on non-emptiness. -/
theorem loadNode_returns_list (inst : NodeInst) (st : PortableNode) :
    ((loadNode inst st).2 = [] ↔
      detectDiscrepancies (parseNodeState st) inst.inputs inst.outputs
        = []) ∧
    ((loadNode inst st).2 ≠ [] → (loadNode inst st).1 = inst) ∧
    ((loadNode inst st).2 =
      detectDiscrepancies (parseNodeState st) inst.inputs inst.outputs ∨
      (loadNode inst st).2 = []) := by
  rcases h : (detectDiscrepancies (parseNodeState st) inst.inputs
    inst.outputs).isEmpty with _ | _
  · have hne : detectDiscrepancies (parseNodeState st) inst.inputs
        inst.outputs ≠ [] := by
      intro hc
      rw [hc] at h
      cases h
    have hload : loadNode inst st = (inst,
        detectDiscrepancies (parseNodeState st) inst.inputs inst.outputs) := by
      simp only [loadNode, h, Bool.false_eq_true, if_false]
    rw [hload]
    exact ⟨⟨fun hc => hc, fun hc => hc⟩, fun _ => rfl, Or.inl rfl⟩
  · have he : detectDiscrepancies (parseNodeState st) inst.inputs
        inst.outputs = [] := List.isEmpty_iff.1 h
    have hload : (loadNode inst st).2 = [] := by
      simp only [loadNode, h, if_true]
    rw [hload]
    exact ⟨⟨fun _ => he, fun _ => rfl⟩, fun hc => absurd rfl hc, Or.inr rfl⟩

theorem loadNode_returns_list_witness :
    (loadNode sampleInst sampleBadState).1 = sampleInst :=
  (loadNode_returns_list sampleInst sampleBadState).2.1 (by decide)

/-! ## C2: unknown names abort the load -/

theorem foldl_hasKey_mono {α β : Type}
    (step : List (String × α) → β → List (String × α))
    (hmono : ∀ m i k', hasKey m k' = true → hasKey (step m i) k' = true) :
    ∀ (l : List β) (acc : List (String × α)) (k : String),
      hasKey acc k = true → hasKey (l.foldl step acc) k = true := by
  intro l
  induction l with
  | nil => intro acc k h; exact h
  | cons i tl ih =>
    intro acc k h
    exact ih (step acc i) k (hmono acc i k h)

theorem foldl_hasKey_of_mem {α β : Type}
    (step : List (String × α) → β → List (String × α))
    (hmono : ∀ m i k', hasKey m k' = true → hasKey (step m i) k' = true)
    {l : List β} {i : β} (hi : i ∈ l) (k : String)
    (hadd : ∀ m, hasKey (step m i) k = true) :
    ∀ acc, hasKey (l.foldl step acc) k = true := by
  induction l with
  | nil => cases hi
  | cons j tl ih =>
    intro acc
    rcases List.mem_cons.1 hi with hEq | hmem
    · rw [List.foldl_cons, ← hEq]
      exact foldl_hasKey_mono step hmono tl (step acc i) k (hadd acc)
    · rw [List.foldl_cons]
      exact ih hmem (step acc j)

theorem addIntfInput_mono (m : List (String × ParsedRec)) (i : PortableIntf)
    (k : String) (h : hasKey m k = true) :
    hasKey (addIntfInput m i) k = true := by
  unfold addIntfInput
  rcases i.direction with _ | d
  · exact h
  · cases d
    · exact (hasKey_upsert_iff m _ k _).2 (Or.inl h)
    · exact (hasKey_upsert_iff m _ k _).2 (Or.inl h)
    · exact h

theorem addIntfOutput_mono (m : List (String × ParsedRec)) (i : PortableIntf)
    (k : String) (h : hasKey m k = true) :
    hasKey (addIntfOutput m i) k = true := by
  unfold addIntfOutput
  rcases i.direction with _ | d
  · exact h
  · cases d
    · exact h
    · exact h
    · exact (hasKey_upsert_iff m _ k _).2 (Or.inl h)

theorem addProp_mono (m : List (String × ParsedRec)) (p : PortableProp)
    (k : String) (h : hasKey m k = true) :
    hasKey (addProp m p) k = true :=
  (hasKey_upsert_iff m _ k _).2 (Or.inl h)

theorem foldl_errs {γ : Type} (c : γ → Bool) (f : γ → String) :
    ∀ (l : List γ) (acc : List String),
    l.foldl (fun errs kv => if c kv then errs else errs ++ [f kv]) acc =
      acc ++ (l.filter (fun kv => !(c kv))).map f := by
  intro l
  induction l with
  | nil => intro acc; simp
  | cons kv tl ih =>
    intro acc
    rcases hc : c kv with _ | _ <;>
      simp [hc, ih] 

theorem detectDiscrepancies_eq (p : ParsedNode)
    (inputs outputs : List (String × IntfState)) :
    detectDiscrepancies p inputs outputs =
      ((objMerge p.inputs p.outputs).filter
        (fun kv => !(hasKey inputs kv.1 || hasKey outputs kv.1))).map
      (fun kv => discrepancyMsg p.type p.id kv.1) := by
  unfold detectDiscrepancies
  have h := foldl_errs
    (fun kv : String × ParsedRec => hasKey inputs kv.1 || hasKey outputs kv.1)
    (fun kv : String × ParsedRec => discrepancyMsg p.type p.id kv.1)
    (objMerge p.inputs p.outputs) []
  rw [List.nil_append] at h
  exact h

theorem discrepancyMsg_contains (ty nid k : String) :
    strContains (discrepancyMsg ty nid k) ty ∧
    strContains (discrepancyMsg ty nid k) nid := by
  unfold discrepancyMsg strContains
  constructor
  · refine ⟨"Node of name ", " and id " ++ nid ++ " is corrupted. " ++
      "Interface named - " ++ jsSliceFrom k (jsIndexOf k '_' + 1) ++
      " of direction - " ++ jsSlice2 k 0 (jsIndexOf k '_') ++
      " not found in specification!", ?_⟩
    simp [String.append_assoc]
  · refine ⟨"Node of name " ++ ty ++ " and id ", " is corrupted. " ++
      "Interface named - " ++ jsSliceFrom k (jsIndexOf k '_' + 1) ++
      " of direction - " ++ jsSlice2 k 0 (jsIndexOf k '_') ++
      " not found in specification!", ?_⟩
    simp [String.append_assoc]

/-- C2: loading a portable record that carries at least one interface or
property name unknown to the instance aborts — the instance's live state is
returned unchanged — and yields at least one discrepancy message containing
the node's type and instance id. -/
theorem loadNode_unknown_aborts (inst : NodeInst) (st : PortableNode)
    (h : (∃ intf ∈ st.interfaces.getD [], ∃ d, intf.direction = some d ∧
        hasKey inst.inputs (d.str ++ "_" ++ intf.name) = false ∧
        hasKey inst.outputs (d.str ++ "_" ++ intf.name) = false) ∨
      ∃ pr ∈ st.properties.getD [],
        hasKey inst.inputs ("property_" ++ pr.name) = false ∧
        hasKey inst.outputs ("property_" ++ pr.name) = false) :
    (loadNode inst st).1 = inst ∧ (loadNode inst st).2 ≠ [] ∧
    ∃ m ∈ (loadNode inst st).2,
      strContains m st.type ∧ strContains m st.id := by
  obtain ⟨k, hk_par, hk_in, hk_out⟩ :
      ∃ k, (hasKey (parseNodeState st).inputs k = true ∨
        hasKey (parseNodeState st).outputs k = true) ∧
        hasKey inst.inputs k = false ∧ hasKey inst.outputs k = false := by
    rcases h with ⟨intf, hmem, d, hdir, hin, hout⟩ | ⟨pr, hmem, hin, hout⟩
    · refine ⟨d.str ++ "_" ++ intf.name, ?_, hin, hout⟩
      cases d
      case input =>
        left
        show hasKey ((st.properties.getD []).foldl addProp
          ((st.interfaces.getD []).foldl addIntfInput st.inputs))
          ("input" ++ "_" ++ intf.name) = true
        apply foldl_hasKey_mono addProp addProp_mono
        apply foldl_hasKey_of_mem addIntfInput addIntfInput_mono hmem
          ("input" ++ "_" ++ intf.name) ?hadd1
        case hadd1 =>
          intro m
          unfold addIntfInput
          rw [hdir]
          exact (hasKey_upsert_iff m _ _ _).2 (Or.inr rfl)
      case inout =>
        left
        show hasKey ((st.properties.getD []).foldl addProp
          ((st.interfaces.getD []).foldl addIntfInput st.inputs))
          ("inout" ++ "_" ++ intf.name) = true
        apply foldl_hasKey_mono addProp addProp_mono
        apply foldl_hasKey_of_mem addIntfInput addIntfInput_mono hmem
          ("inout" ++ "_" ++ intf.name) ?hadd2
        case hadd2 =>
          intro m
          unfold addIntfInput
          rw [hdir]
          exact (hasKey_upsert_iff m _ _ _).2 (Or.inr rfl)
      case output =>
        right
        show hasKey ((st.interfaces.getD []).foldl addIntfOutput st.outputs)
          ("output" ++ "_" ++ intf.name) = true
        apply foldl_hasKey_of_mem addIntfOutput addIntfOutput_mono hmem
          ("output" ++ "_" ++ intf.name) ?hadd3
        case hadd3 =>
          intro m
          unfold addIntfOutput
          rw [hdir]
          exact (hasKey_upsert_iff m _ _ _).2 (Or.inr rfl)
    · refine ⟨"property_" ++ pr.name, ?_, hin, hout⟩
      left
      show hasKey ((st.properties.getD []).foldl addProp
        ((st.interfaces.getD []).foldl addIntfInput st.inputs))
        ("property_" ++ pr.name) = true
      apply foldl_hasKey_of_mem addProp addProp_mono hmem
        ("property_" ++ pr.name) ?hadd4
      case hadd4 =>
        intro m
        unfold addProp
        exact (hasKey_upsert_iff m _ _ _).2 (Or.inr rfl)
  have hmerge : hasKey (objMerge (parseNodeState st).inputs
      (parseNodeState st).outputs) k = true :=
    (hasKey_objMerge _ _ k).2 hk_par
  rw [hasKey_iff_mem] at hmerge
  rcases List.mem_map.1 hmerge with ⟨kv, hkv, hfst⟩
  have hflt : kv ∈ (objMerge (parseNodeState st).inputs
      (parseNodeState st).outputs).filter
      (fun kv => !(hasKey inst.inputs kv.1 || hasKey inst.outputs kv.1)) := by
    apply List.mem_filter.2
    refine ⟨hkv, ?_⟩
    rw [hfst, hk_in, hk_out]
    rfl
  have hmsg : discrepancyMsg (parseNodeState st).type (parseNodeState st).id
      kv.1 ∈ detectDiscrepancies (parseNodeState st) inst.inputs
      inst.outputs := by
    rw [detectDiscrepancies_eq]
    exact List.mem_map_of_mem _ hflt
  have hne : detectDiscrepancies (parseNodeState st) inst.inputs
      inst.outputs ≠ [] := List.ne_nil_of_mem hmsg
  have hfalse : (detectDiscrepancies (parseNodeState st) inst.inputs
      inst.outputs).isEmpty = false := by
    rcases hie : (detectDiscrepancies (parseNodeState st) inst.inputs
      inst.outputs).isEmpty with _ | _
    · rfl
    · exact absurd (List.isEmpty_iff.1 hie) hne
  have hload : loadNode inst st = (inst,
      detectDiscrepancies (parseNodeState st) inst.inputs inst.outputs) := by
    simp only [loadNode, hfalse, Bool.false_eq_true, if_false]
  rw [hload]
  exact ⟨rfl, hne, discrepancyMsg (parseNodeState st).type
    (parseNodeState st).id kv.1, hmsg,
    (discrepancyMsg_contains st.type st.id kv.1).1,
    (discrepancyMsg_contains st.type st.id kv.1).2⟩

theorem loadNode_unknown_aborts_witness :
    (loadNode sampleInst sampleBadState).1 = sampleInst ∧
    (loadNode sampleInst sampleBadState).2 ≠ [] ∧
    ∃ m ∈ (loadNode sampleInst sampleBadState).2,
      strContains m sampleBadState.type ∧ strContains m sampleBadState.id :=
  loadNode_unknown_aborts sampleInst sampleBadState
    (Or.inl ⟨⟨"zzz", "id-z", some .input, some .left⟩, by decide,
      .input, rfl, by decide, by decide⟩)

/-! ## C1: infrastructure for the save/load round trip -/

theorem nodup_keys_inj {α : Type} {m : List (String × α)}
    (hnd : (m.map Prod.fst).Nodup) {kv1 kv2 : String × α}
    (h1 : kv1 ∈ m) (h2 : kv2 ∈ m) (hk : kv1.1 = kv2.1) : kv1 = kv2 := by
  induction m with
  | nil => cases h1
  | cons kv tl ih =>
    rw [List.map_cons, List.nodup_cons] at hnd
    rcases List.mem_cons.1 h1 with he1 | hm1 <;>
      rcases List.mem_cons.1 h2 with he2 | hm2
    · rw [he1, he2]
    · exact absurd (hk ▸ List.mem_map_of_mem Prod.fst hm2)
        (he1 ▸ hnd.1)
    · exact absurd (hk ▸ List.mem_map_of_mem Prod.fst hm1)
        (he2 ▸ hnd.1)
    · exact ih hnd.2 hm1 hm2

theorem foldl_id_of_mem {σ β : Type} (step : σ → β → σ) (A : σ) :
    ∀ l : List β, (∀ i ∈ l, step A i = A) → l.foldl step A = A := by
  intro l
  induction l with
  | nil => intro _; rfl
  | cons i tl ih =>
    intro h
    rw [List.foldl_cons, h i (List.mem_cons_self i tl)]
    exact ih (fun j hj => h j (List.mem_cons_of_mem i hj))

theorem foldl_upsert_append {α β : Type} (κ : β → String) (ν : β → α)
    (step : List (String × α) → β → List (String × α)) :
    ∀ (l : List β), (∀ m i, i ∈ l → step m i = upsert m (κ i) (ν i)) →
    ∀ acc, (∀ i ∈ l, hasKey acc (κ i) = false) → ((l.map κ)).Nodup →
    l.foldl step acc = acc ++ l.map (fun i => (κ i, ν i)) := by
  intro l
  induction l with
  | nil => intro _ acc _ _; simp
  | cons i tl ih =>
    intro hstep acc hfresh hnd
    rw [List.map_cons, List.nodup_cons] at hnd
    rw [List.foldl_cons, hstep acc i (List.mem_cons_self i tl),
      upsert_of_not_hasKey (ν i) (hfresh i (List.mem_cons_self i tl))]
    rw [ih (fun m j hj => hstep m j (List.mem_cons_of_mem i hj))
      (acc ++ [(κ i, ν i)]) ?fr hnd.2]
    · simp
    case fr =>
      intro j hj
      rw [hasKey_append, hfresh j (List.mem_cons_of_mem i hj)]
      have hne : κ j ≠ κ i := by
        intro hc
        exact hnd.1 (hc ▸ List.mem_map_of_mem κ hj)
      unfold hasKey
      rw [lookup_cons_ne _ [] hne, List.lookup_nil]
      rfl

theorem lookup_filter_map_self {α γ : Type} {m : List (String × α)}
    (p : String × α → Bool) (f : String × α → γ)
    (hnd : (m.map Prod.fst).Nodup) :
    ∀ {k : String} {v : α}, (k, v) ∈ m →
    ((m.filter p).map (fun kv => (kv.1, f kv))).lookup k =
      if p (k, v) then some (f (k, v)) else none := by
  induction m with
  | nil => intro k v h; cases h
  | cons kv tl ih =>
    intro k v hmem
    rw [List.map_cons, List.nodup_cons] at hnd
    rcases List.mem_cons.1 hmem with he | hm
    · have hknotin : k ∉ (tl.map Prod.fst) := by
        rw [← he] at hnd
        exact hnd.1
      rcases hp : p kv with _ | _
      · rw [List.filter_cons, hp]
        simp only [Bool.false_eq_true, if_false]
        rw [← he] at hp
        rw [hp]
        simp only [Bool.false_eq_true, if_false]
        apply lookup_eq_none_of_not_mem
        intro hc
        simp only [List.map_map, List.mem_map, Function.comp] at hc
        rcases hc with ⟨kv2, hkv2, hfst⟩
        exact hknotin (hfst ▸ List.mem_map_of_mem Prod.fst
          (List.mem_of_mem_filter hkv2))
      · rw [List.filter_cons, hp]
        simp only [if_true]
        rw [List.map_cons]
        rw [← he] at hp ⊢
        rw [hp]
        simp only [if_true]
        exact lookup_cons_self k (f (k, v)) _
    · have hkne : k ≠ kv.1 := by
        intro hc
        have hnd2 : ((kv :: tl).map Prod.fst).Nodup := by
          rw [List.map_cons]
          exact List.nodup_cons.2 hnd
        have : (k, v) = kv := nodup_keys_inj hnd2
          (List.mem_cons_of_mem kv hm) (List.mem_cons_self kv tl) hc
        rw [← this] at hnd
        exact hnd.1 (List.mem_map_of_mem Prod.fst hm)
      rcases hp : p kv with _ | _
      · rw [List.filter_cons, hp]
        simp only [Bool.false_eq_true, if_false]
        exact ih hnd.2 hm
      · rw [List.filter_cons, hp]
        simp only [if_true, List.map_cons]
        rw [show ((kv.1, f kv) :: (tl.filter p).map (fun kv => (kv.1, f kv)))
          = ((kv.1, f kv) :: (tl.filter p).map (fun kv => (kv.1, f kv)))
          from rfl]
        rw [lookup_cons_ne (f kv) _ hkne]
        exact ih hnd.2 hm

theorem keys_filter_map_sub {α γ : Type} (m : List (String × α))
    (p : String × α → Bool) (f : String × α → γ) (k : String)
    (h : k ∈ ((m.filter p).map (fun kv => (kv.1, f kv))).map Prod.fst) :
    k ∈ m.map Prod.fst := by
  simp only [List.map_map, List.mem_map, Function.comp] at h
  rcases h with ⟨kv, hkv, hfst⟩
  exact hfst ▸ List.mem_map_of_mem Prod.fst (List.mem_of_mem_filter hkv)

theorem mem_objMerge_keys {α : Type} {a b : List (String × α)}
    {kv : String × α} (h : kv ∈ objMerge a b) :
    kv.1 ∈ a.map Prod.fst ∨ kv.1 ∈ b.map Prod.fst := by
  unfold objMerge at h
  rcases List.mem_append.1 h with h1 | h1
  · left
    rcases List.mem_map.1 h1 with ⟨kv0, hkv0, hEq⟩
    have : kv.1 = kv0.1 := by
      rcases hb : b.lookup kv0.1 with _ | w <;> rw [hb] at hEq <;>
        rw [← hEq]
    exact this ▸ List.mem_map_of_mem Prod.fst hkv0
  · exact Or.inr (List.mem_map_of_mem Prod.fst (List.mem_of_mem_filter h1))

theorem applySideTo_id {m : List (String × IntfState)}
    (hnd : (m.map Prod.fst).Nodup) {k : String} {s : IntfState} {sd : Side}
    (hmem : (k, s) ∈ m) (hside : s.side = some sd) :
    applySideTo m k sd = m := by
  unfold applySideTo
  conv_rhs => rw [← List.map_id m]
  apply List.map_congr_left
  intro kv hkv
  by_cases hc : kv.1 = k
  · have : kv = (k, s) := nodup_keys_inj hnd hkv hmem hc
    rw [if_pos hc, this]
    show (k, { s with side := some sd }) = (k, s)
    rw [← hside]
  · rw [if_neg hc]
    rfl

theorem roundtrip_parsed (inst : NodeInst) (hwf : wfInst inst) :
    (parseNodeState (saveNode inst)).inputs =
      (inst.inputs.filter (fun kv => kv.2.port)).map
        (fun kv => (kv.1, recOfIntf (savePortRec kv.1 kv.2))) ++
      (inst.inputs.filter (fun kv => !kv.2.port)).map
        (fun kv => (kv.1, recOfProp (savePropRec kv.1 kv.2))) ∧
    (parseNodeState (saveNode inst)).outputs =
      inst.outputs.map (fun kv => (kv.1, recOfIntf (savePortRec kv.1 kv.2))) := by
  obtain ⟨hnd, hwin, hwout⟩ := hwf
  rw [List.map_append] at hnd
  obtain ⟨hndin, hndout, hdisjk⟩ := List.nodup_append.1 hnd
  have hdisj : ∀ k, hasKey inst.inputs k = false ∨
      hasKey inst.outputs k = false := by
    intro k
    by_cases h1 : hasKey inst.inputs k = true
    · right
      rw [Bool.eq_false_iff]
      intro h2
      exact hdisjk ((hasKey_iff_mem _ _).1 h1) ((hasKey_iff_mem _ _).1 h2)
    · exact Or.inl (Bool.eq_false_iff.2 h1)
  have hmerge : objMerge inst.inputs inst.outputs =
      inst.inputs ++ inst.outputs := objMerge_disjoint _ _ hdisj
  have hofilter : inst.outputs.filter (fun kv => kv.2.port) = inst.outputs := by
    apply List.filter_eq_self.mpr
    intro kv hkv
    exact (hwout kv hkv).1
  have hofilter' : inst.outputs.filter (fun kv => !kv.2.port) = [] := by
    apply List.filter_eq_nil_iff.mpr
    intro kv hkv
    rw [(hwout kv hkv).1]
    simp
  have hIL : (saveNode inst).interfaces = some (
      (inst.inputs.filter (fun kv => kv.2.port)).map
        (fun kv => savePortRec kv.1 kv.2) ++
      inst.outputs.map (fun kv => savePortRec kv.1 kv.2)) := by
    show some ((objMerge inst.inputs inst.outputs).foldl _ ([], [])).1 = _
    rw [hmerge, save_fold_partition]
    simp only [List.filter_append, hofilter]
    simp
  have hPL : (saveNode inst).properties = some (
      (inst.inputs.filter (fun kv => !kv.2.port)).map
        (fun kv => savePropRec kv.1 kv.2)) := by
    show some ((objMerge inst.inputs inst.outputs).foldl _ ([], [])).2 = _
    rw [hmerge, save_fold_partition]
    simp only [List.filter_append, hofilter']
    simp
  have hkey_port : ∀ kv ∈ inst.inputs.filter (fun kv => kv.2.port),
      ∃ d, kv.2.direction = some d ∧ (d = Dir.input ∨ d = Dir.inout) ∧
        kv.1 = d.str ++ "_" ++ dropStr kv.1 (d.str.length + 1) := by
    intro kv hkv
    obtain ⟨k, s⟩ := kv
    have hw := hwin (k, s) (List.mem_of_mem_filter hkv)
    have hp : s.port = true := by
      have := List.of_mem_filter hkv
      exact this
    have hw2 : (if s.port then
        ∃ d, s.direction = some d ∧ (d = Dir.input ∨ d = Dir.inout) ∧
          k = d.str ++ "_" ++ dropStr k (d.str.length + 1)
      else k = "property_" ++ dropStr k 9) := hw
    rw [hp] at hw2
    simpa using hw2
  have hkey_prop : ∀ kv ∈ inst.inputs.filter (fun kv => !kv.2.port),
      kv.1 = "property_" ++ dropStr kv.1 9 := by
    intro kv hkv
    obtain ⟨k, s⟩ := kv
    have hw := hwin (k, s) (List.mem_of_mem_filter hkv)
    have hp : s.port = false := by
      have := List.of_mem_filter hkv
      simpa using this
    have hw2 : (if s.port then
        ∃ d, s.direction = some d ∧ (d = Dir.input ∨ d = Dir.inout) ∧
          k = d.str ++ "_" ++ dropStr k (d.str.length + 1)
      else k = "property_" ++ dropStr k 9) := hw
    rw [hp] at hw2
    simpa using hw2
  have hκport : ∀ kv ∈ inst.inputs.filter (fun kv => kv.2.port),
      ((savePortRec kv.1 kv.2).direction.getD Dir.input).str ++ "_" ++
        (savePortRec kv.1 kv.2).name = kv.1 := by
    intro kv hkv
    obtain ⟨d, hdir, _, hkey⟩ := hkey_port kv hkv
    show ((kv.2.direction).getD Dir.input).str ++ "_" ++
      jsSliceFrom kv.1 (Int.ofNat (dirLen kv.2.direction + 1)) = kv.1
    rw [hdir, jsSliceFrom_ofNat]
    show d.str ++ "_" ++ dropStr kv.1 (d.str.length + 1) = kv.1
    exact hkey.symm
  have hκprop : ∀ kv ∈ inst.inputs.filter (fun kv => !kv.2.port),
      ("property_" ++ (savePropRec kv.1 kv.2).name : String) = kv.1 := by
    intro kv hkv
    show ("property_" ++
      jsSliceFrom kv.1 (Int.ofNat (("property" : String).length + 1))
        : String) = kv.1
    rw [jsSliceFrom_ofNat]
    exact (hkey_prop kv hkv).symm
  have hκout : ∀ kv ∈ inst.outputs,
      (Dir.output.str ++ "_" ++ (savePortRec kv.1 kv.2).name : String)
        = kv.1 := by
    intro kv hkv
    obtain ⟨hp, hdir, hkey⟩ := hwout kv hkv
    show (Dir.output.str ++ "_" ++
      jsSliceFrom kv.1 (Int.ofNat (dirLen kv.2.direction + 1))
        : String) = kv.1
    rw [hdir, jsSliceFrom_ofNat]
    show "output" ++ "_" ++ dropStr kv.1 ("output".length + 1) = kv.1
    exact hkey.symm
  have hkeysA : ((inst.inputs.filter (fun kv => kv.2.port)).map
      (fun kv => savePortRec kv.1 kv.2)).map
        (fun r => (r.direction.getD Dir.input).str ++ "_" ++ r.name) =
      (inst.inputs.filter (fun kv => kv.2.port)).map Prod.fst := by
    rw [List.map_map]
    apply List.map_congr_left
    intro kv hkv
    exact hκport kv hkv
  have hkeysP : ((inst.inputs.filter (fun kv => !kv.2.port)).map
      (fun kv => savePropRec kv.1 kv.2)).map
        (fun r => ("property_" ++ r.name : String)) =
      (inst.inputs.filter (fun kv => !kv.2.port)).map Prod.fst := by
    rw [List.map_map]
    apply List.map_congr_left
    intro kv hkv
    exact hκprop kv hkv
  have hkeysO : (inst.outputs.map (fun kv => savePortRec kv.1 kv.2)).map
        (fun r => (Dir.output.str ++ "_" ++ r.name : String)) =
      inst.outputs.map Prod.fst := by
    rw [List.map_map]
    apply List.map_congr_left
    intro kv hkv
    exact hκout kv hkv
  constructor
  · have hparse : (parseNodeState (saveNode inst)).inputs =
        ((inst.inputs.filter (fun kv => !kv.2.port)).map
          (fun kv => savePropRec kv.1 kv.2)).foldl addProp
        ((((inst.inputs.filter (fun kv => kv.2.port)).map
          (fun kv => savePortRec kv.1 kv.2)) ++
          inst.outputs.map (fun kv => savePortRec kv.1 kv.2)).foldl
            addIntfInput []) := by
      show ((saveNode inst).properties.getD []).foldl addProp
        (((saveNode inst).interfaces.getD []).foldl addIntfInput
          (saveNode inst).inputs) = _
      rw [hIL, hPL]
      rfl
    rw [hparse, List.foldl_append]
    have hfoldA : ((inst.inputs.filter (fun kv => kv.2.port)).map
        (fun kv => savePortRec kv.1 kv.2)).foldl addIntfInput [] =
        ((inst.inputs.filter (fun kv => kv.2.port)).map
          (fun kv => savePortRec kv.1 kv.2)).map
          (fun r => ((r.direction.getD Dir.input).str ++ "_" ++ r.name,
            recOfIntf r)) := by
      rw [foldl_upsert_append
        (fun r : PortableIntf => (r.direction.getD Dir.input).str ++ "_" ++ r.name)
        recOfIntf addIntfInput _ ?hstep [] ?hfresh ?hnodup]
      · rw [List.nil_append]
      case hstep =>
        intro m i hi
        rcases List.mem_map.1 hi with ⟨kv, hkv, hEq⟩
        obtain ⟨d, hdir, hdok, _⟩ := hkey_port kv hkv
        have hidir : i.direction = some d := by
          rw [← hEq]
          exact hdir
        show addIntfInput m i =
          upsert m ((i.direction.getD Dir.input).str ++ "_" ++ i.name)
            (recOfIntf i)
        unfold addIntfInput
        rw [hidir]
        rcases hdok with h | h <;> subst h <;> rfl
      case hfresh =>
        intro i _
        rfl
      case hnodup =>
        rw [hkeysA]
        exact List.Nodup.sublist
          (List.Sublist.map Prod.fst (List.filter_sublist inst.inputs)) hndin
    rw [hfoldA]
    have hfoldB : (inst.outputs.map (fun kv => savePortRec kv.1 kv.2)).foldl
        addIntfInput
        (((inst.inputs.filter (fun kv => kv.2.port)).map
          (fun kv => savePortRec kv.1 kv.2)).map
          (fun r => ((r.direction.getD Dir.input).str ++ "_" ++ r.name,
            recOfIntf r))) =
        ((inst.inputs.filter (fun kv => kv.2.port)).map
          (fun kv => savePortRec kv.1 kv.2)).map
          (fun r => ((r.direction.getD Dir.input).str ++ "_" ++ r.name,
            recOfIntf r)) := by
      apply foldl_id_of_mem
      intro i hi
      rcases List.mem_map.1 hi with ⟨kv, hkv, hEq⟩
      have hidir : i.direction = some Dir.output := by
        rw [← hEq]
        exact (hwout kv hkv).2.1
      unfold addIntfInput
      rw [hidir]
    rw [hfoldB]
    have hfoldC : ((inst.inputs.filter (fun kv => !kv.2.port)).map
        (fun kv => savePropRec kv.1 kv.2)).foldl addProp
        (((inst.inputs.filter (fun kv => kv.2.port)).map
          (fun kv => savePortRec kv.1 kv.2)).map
          (fun r => ((r.direction.getD Dir.input).str ++ "_" ++ r.name,
            recOfIntf r))) =
        (((inst.inputs.filter (fun kv => kv.2.port)).map
          (fun kv => savePortRec kv.1 kv.2)).map
          (fun r => ((r.direction.getD Dir.input).str ++ "_" ++ r.name,
            recOfIntf r))) ++
        ((inst.inputs.filter (fun kv => !kv.2.port)).map
          (fun kv => savePropRec kv.1 kv.2)).map
          (fun r => (("property_" ++ r.name : String), recOfProp r)) := by
      rw [foldl_upsert_append
        (fun r : PortableProp => ("property_" ++ r.name : String))
        recOfProp addProp _ ?hstep2 _ ?hfresh2 ?hnodup2]
      case hstep2 =>
        intro m i _
        rfl
      case hfresh2 =>
        intro i hi
        rcases List.mem_map.1 hi with ⟨kv, hkv, hEq⟩
        have hik : ("property_" ++ i.name : String) = kv.1 := by
          rw [← hEq]
          exact hκprop kv hkv
        change hasKey _ (("property_" ++ i.name : String)) = false
        rw [hik, Bool.eq_false_iff]
        intro hc
        rw [hasKey_iff_mem] at hc
        rw [List.map_map] at hc
        rcases List.mem_map.1 hc with ⟨r, hr, hrEq⟩
        rcases List.mem_map.1 hr with ⟨kv2, hkv2, hEq2⟩
        have hkk : kv2.1 = kv.1 := by
          have := hκport kv2 hkv2
          rw [← this, ← hrEq, ← hEq2]
          rfl
        have : kv2 = kv := nodup_keys_inj hndin
          (List.mem_of_mem_filter hkv2) (List.mem_of_mem_filter hkv) hkk
        have hp2 : kv2.2.port = true := by
          have := (List.mem_filter.1 hkv2).2
          simpa using this
        have hp1 : kv.2.port = false := by
          have := (List.mem_filter.1 hkv).2
          simpa using this
        rw [this, hp1] at hp2
        cases hp2
      case hnodup2 =>
        rw [hkeysP]
        exact List.Nodup.sublist
          (List.Sublist.map Prod.fst (List.filter_sublist inst.inputs)) hndin
    rw [hfoldC]
    congr 1
    · rw [List.map_map]
      apply List.map_congr_left
      intro kv hkv
      show ((((savePortRec kv.1 kv.2).direction.getD Dir.input).str ++ "_" ++
        (savePortRec kv.1 kv.2).name : String),
        recOfIntf (savePortRec kv.1 kv.2)) =
        (kv.1, recOfIntf (savePortRec kv.1 kv.2))
      rw [hκport kv hkv]
    · rw [List.map_map]
      apply List.map_congr_left
      intro kv hkv
      show (("property_" ++ (savePropRec kv.1 kv.2).name : String),
        recOfProp (savePropRec kv.1 kv.2)) =
        (kv.1, recOfProp (savePropRec kv.1 kv.2))
      rw [hκprop kv hkv]
  · have hparse : (parseNodeState (saveNode inst)).outputs =
        ((((inst.inputs.filter (fun kv => kv.2.port)).map
          (fun kv => savePortRec kv.1 kv.2)) ++
          inst.outputs.map (fun kv => savePortRec kv.1 kv.2)).foldl
            addIntfOutput []) := by
      show (((saveNode inst).interfaces.getD []).foldl addIntfOutput
        (saveNode inst).outputs) = _
      rw [hIL]
      rfl
    rw [hparse, List.foldl_append]
    have hfoldA : ((inst.inputs.filter (fun kv => kv.2.port)).map
        (fun kv => savePortRec kv.1 kv.2)).foldl addIntfOutput [] = [] := by
      apply foldl_id_of_mem
      intro i hi
      rcases List.mem_map.1 hi with ⟨kv, hkv, hEq⟩
      obtain ⟨d, hdir, hdok, _⟩ := hkey_port kv hkv
      have hidir : i.direction = some d := by
        rw [← hEq]
        exact hdir
      unfold addIntfOutput
      rw [hidir]
      rcases hdok with h | h <;> subst h <;> rfl
    rw [hfoldA]
    have hfoldB : (inst.outputs.map (fun kv => savePortRec kv.1 kv.2)).foldl
        addIntfOutput [] =
        (inst.outputs.map (fun kv => savePortRec kv.1 kv.2)).map
          (fun r => ((Dir.output.str ++ "_" ++ r.name : String),
            recOfIntf r)) := by
      rw [foldl_upsert_append
        (fun r : PortableIntf => (Dir.output.str ++ "_" ++ r.name : String))
        recOfIntf addIntfOutput _ ?hstep3 [] ?hfresh3 ?hnodup3]
      · rw [List.nil_append]
      case hstep3 =>
        intro m i hi
        rcases List.mem_map.1 hi with ⟨kv, hkv, hEq⟩
        have hidir : i.direction = some Dir.output := by
          rw [← hEq]
          exact (hwout kv hkv).2.1
        show addIntfOutput m i =
          upsert m ((Dir.output.str ++ "_" ++ i.name : String)) (recOfIntf i)
        unfold addIntfOutput
        rw [hidir]
        rfl
      case hfresh3 =>
        intro i _
        rfl
      case hnodup3 =>
        rw [hkeysO]
        exact hndout
    rw [hfoldB, List.map_map]
    apply List.map_congr_left
    intro kv hkv
    show ((Dir.output.str ++ "_" ++ (savePortRec kv.1 kv.2).name : String),
      recOfIntf (savePortRec kv.1 kv.2)) =
      (kv.1, recOfIntf (savePortRec kv.1 kv.2))
    rw [hκout kv hkv]

theorem roundtrip_no_discrepancy (inst : NodeInst) (hwf : wfInst inst) :
    detectDiscrepancies (parseNodeState (saveNode inst)) inst.inputs
      inst.outputs = [] := by
  obtain ⟨hin, hout⟩ := roundtrip_parsed inst hwf
  rw [detectDiscrepancies_eq]
  have hflt : ((objMerge (parseNodeState (saveNode inst)).inputs
      (parseNodeState (saveNode inst)).outputs).filter
      (fun kv => !(hasKey inst.inputs kv.1 || hasKey inst.outputs kv.1)))
      = [] := by
    apply List.filter_eq_nil_iff.mpr
    intro kv hkv
    rcases mem_objMerge_keys hkv with hk | hk
    · rw [hin] at hk
      rw [List.map_append, List.mem_append] at hk
      have hmem : kv.1 ∈ inst.inputs.map Prod.fst := by
        rcases hk with hk | hk
        · exact keys_filter_map_sub inst.inputs _ _ kv.1 hk
        · exact keys_filter_map_sub inst.inputs _ _ kv.1 hk
      rw [← hasKey_iff_mem] at hmem
      rw [hmem]
      simp
    · rw [hout] at hk
      simp only [List.map_map, List.mem_map, Function.comp] at hk
      rcases hk with ⟨kv0, hkv0, hfst⟩
      have hmem : kv.1 ∈ inst.outputs.map Prod.fst :=
        hfst ▸ List.mem_map_of_mem Prod.fst hkv0
      rw [← hasKey_iff_mem] at hmem
      rw [hmem]
      simp
  rw [hflt]
  rfl

theorem roundtrip_parentLoad (inst : NodeInst) (hwf : wfInst inst)
    (hdef : ∀ kv ∈ inst.inputs, kv.2.port = false → kv.2.value ≠ none) :
    parentLoad inst (parseNodeState (saveNode inst)) =
      { inst with position := some (inst.position.getD ⟨0, 0⟩) } := by
  obtain ⟨hin, hout⟩ := roundtrip_parsed inst hwf
  obtain ⟨hnd, hwin, hwout⟩ := hwf
  rw [List.map_append] at hnd
  obtain ⟨hndin, hndout, hdisjk⟩ := List.nodup_append.1 hnd
  unfold parentLoad
  have hinputs : inst.inputs.map (fun kv =>
      match (parseNodeState (saveNode inst)).inputs.lookup kv.1 with
      | some r => (kv.1, { kv.2 with
          id := r.id
          value := match r.value with
            | some v => some v
            | none => kv.2.value })
      | none => kv) = inst.inputs := by
    conv_rhs => rw [← List.map_id inst.inputs]
    apply List.map_congr_left
    intro kv hkv
    obtain ⟨k, s⟩ := kv
    obtain ⟨sid, sval, sdir, sside, sport⟩ := s
    show (match (parseNodeState (saveNode inst)).inputs.lookup k with
      | some r => (k, IntfState.mk r.id (match r.value with
          | some v => some v
          | none => sval) sdir sside sport)
      | none => (k, IntfState.mk sid sval sdir sside sport)) =
      (k, IntfState.mk sid sval sdir sside sport)
    rcases sport
    · have hlkA : ((inst.inputs.filter (fun kv => kv.2.port)).map
          (fun kv => (kv.1, recOfIntf (savePortRec kv.1 kv.2)))).lookup k
          = none := by
        rw [lookup_filter_map_self (fun kv => kv.2.port)
          (fun kv => recOfIntf (savePortRec kv.1 kv.2)) hndin hkv]
        rfl
      have hlkP : ((inst.inputs.filter (fun kv => !kv.2.port)).map
          (fun kv => (kv.1, recOfProp (savePropRec kv.1 kv.2)))).lookup k
          = some (recOfProp (savePropRec k
            (IntfState.mk sid sval sdir sside false))) := by
        rw [lookup_filter_map_self (fun kv => !kv.2.port)
          (fun kv => recOfProp (savePropRec kv.1 kv.2)) hndin hkv]
        rfl
      have hlk : (parseNodeState (saveNode inst)).inputs.lookup k
          = some (recOfProp (savePropRec k
            (IntfState.mk sid sval sdir sside false))) := by
        rw [hin, lookup_append_right _ hlkA]
        exact hlkP
      rw [hlk]
      obtain ⟨v0, hv0⟩ := Option.ne_none_iff_exists'.1
        (hdef (k, IntfState.mk sid sval sdir sside false) hkv rfl)
      have hv0' : sval = some v0 := hv0
      show (k, IntfState.mk sid (some (sval.getD .null)) sdir sside false)
        = (k, IntfState.mk sid sval sdir sside false)
      rw [hv0']
      rfl
    · have hlkA : ((inst.inputs.filter (fun kv => kv.2.port)).map
          (fun kv => (kv.1, recOfIntf (savePortRec kv.1 kv.2)))).lookup k
          = some (recOfIntf (savePortRec k
            (IntfState.mk sid sval sdir sside true))) := by
        rw [lookup_filter_map_self (fun kv => kv.2.port)
          (fun kv => recOfIntf (savePortRec kv.1 kv.2)) hndin hkv]
        rfl
      have hlk : (parseNodeState (saveNode inst)).inputs.lookup k
          = some (recOfIntf (savePortRec k
            (IntfState.mk sid sval sdir sside true))) := by
        rw [hin, lookup_append_left _ (by rw [hlkA]; rfl)]
        exact hlkA
      rw [hlk]
      rfl
  have houtputs : inst.outputs.map (fun kv =>
      match (parseNodeState (saveNode inst)).outputs.lookup kv.1 with
      | some r => (kv.1, { kv.2 with
          id := r.id
          value := match r.value with
            | some v => some v
            | none => kv.2.value })
      | none => kv) = inst.outputs := by
    conv_rhs => rw [← List.map_id inst.outputs]
    apply List.map_congr_left
    intro kv hkv
    obtain ⟨k, s⟩ := kv
    obtain ⟨sid, sval, sdir, sside, sport⟩ := s
    show (match (parseNodeState (saveNode inst)).outputs.lookup k with
      | some r => (k, IntfState.mk r.id (match r.value with
          | some v => some v
          | none => sval) sdir sside sport)
      | none => (k, IntfState.mk sid sval sdir sside sport)) =
      (k, IntfState.mk sid sval sdir sside sport)
    have hlk : (parseNodeState (saveNode inst)).outputs.lookup k
        = some (recOfIntf (savePortRec k
          (IntfState.mk sid sval sdir sside sport))) := by
      rw [hout]
      have hfil : inst.outputs.map
          (fun kv => (kv.1, recOfIntf (savePortRec kv.1 kv.2))) =
          (inst.outputs.filter (fun _ => true)).map
          (fun kv => (kv.1, recOfIntf (savePortRec kv.1 kv.2))) := by
        rw [List.filter_true]
      rw [hfil, lookup_filter_map_self (fun _ => true)
        (fun kv => recOfIntf (savePortRec kv.1 kv.2)) hndout hkv]
      rfl
    rw [hlk]
    rfl
  rw [hinputs, houtputs]
  rfl

theorem roundtrip_applySides (inst : NodeInst) (hwf : wfInst inst)
    (X : NodeInst) (hXi : X.inputs = inst.inputs)
    (hXo : X.outputs = inst.outputs) :
    applySides X (parseNodeState (saveNode inst)) = X := by
  obtain ⟨hin, hout⟩ := roundtrip_parsed inst hwf
  obtain ⟨hnd, hwin, hwout⟩ := hwf
  rw [List.map_append] at hnd
  obtain ⟨hndin, hndout, hdisjk⟩ := List.nodup_append.1 hnd
  have hsubin : ∀ k, k ∈ (parseNodeState (saveNode inst)).inputs.map
      Prod.fst → k ∈ inst.inputs.map Prod.fst := by
    intro k hk
    rw [hin, List.map_append, List.mem_append] at hk
    rcases hk with hk | hk
    · exact keys_filter_map_sub inst.inputs _ _ k hk
    · exact keys_filter_map_sub inst.inputs _ _ k hk
  have hsubout : ∀ k, k ∈ (parseNodeState (saveNode inst)).outputs.map
      Prod.fst → k ∈ inst.outputs.map Prod.fst := by
    intro k hk
    rw [hout] at hk
    simp only [List.map_map, List.mem_map, Function.comp] at hk
    rcases hk with ⟨kv0, hkv0, hfst⟩
    exact hfst ▸ List.mem_map_of_mem Prod.fst hkv0
  have hpdisj : ∀ k, hasKey (parseNodeState (saveNode inst)).inputs k
      = false ∨ hasKey (parseNodeState (saveNode inst)).outputs k
      = false := by
    intro k
    by_cases h1 : hasKey (parseNodeState (saveNode inst)).inputs k = true
    · right
      rw [Bool.eq_false_iff]
      intro h2
      exact hdisjk (hsubin k ((hasKey_iff_mem _ _).1 h1))
        (hsubout k ((hasKey_iff_mem _ _).1 h2))
    · exact Or.inl (Bool.eq_false_iff.2 h1)
  have hpm : objMerge (parseNodeState (saveNode inst)).inputs
      (parseNodeState (saveNode inst)).outputs =
      (parseNodeState (saveNode inst)).inputs ++
      (parseNodeState (saveNode inst)).outputs :=
    objMerge_disjoint _ _ hpdisj
  unfold applySides
  rw [hpm]
  apply foldl_id_of_mem
  intro kv hkv
  rcases List.mem_append.1 hkv with hmem | hmem
  · rw [hin] at hmem
    rcases List.mem_append.1 hmem with hA | hP
    · rcases List.mem_map.1 hA with ⟨kv0, hkv0, hEq⟩
      obtain ⟨k0, s0⟩ := kv0
      have hport : s0.port = true := by
        have := (List.mem_filter.1 hkv0).2
        simpa using this
      have hw2 : (if s0.port then
          ∃ d, s0.direction = some d ∧ (d = Dir.input ∨ d = Dir.inout) ∧
            k0 = d.str ++ "_" ++ dropStr k0 (d.str.length + 1)
        else k0 = "property_" ++ dropStr k0 9) :=
        hwin (k0, s0) (List.mem_of_mem_filter hkv0)
      rw [hport] at hw2
      simp only [if_true] at hw2
      obtain ⟨d, hdir, hdok, _⟩ := hw2
      obtain ⟨sid, sval, sdir, sside, sport⟩ := s0
      have hdir' : sdir = some d := hdir
      subst hdir'
      rw [← hEq]
      rcases sside with _ | sd
      · rfl
      · show (if d = Dir.input ∨ d = Dir.inout then
          { X with inputs := applySideTo X.inputs k0 sd }
          else { X with outputs := applySideTo X.outputs k0 sd }) = X
        rcases hdok with h | h <;> subst h
        · rw [if_pos (Or.inl rfl), hXi,
            applySideTo_id hndin (List.mem_of_mem_filter hkv0) rfl, ← hXi]
        · rw [if_pos (Or.inr rfl), hXi,
            applySideTo_id hndin (List.mem_of_mem_filter hkv0) rfl, ← hXi]
    · rcases List.mem_map.1 hP with ⟨kv0, hkv0, hEq⟩
      rw [← hEq]
      rfl
  · rw [hout] at hmem
    rcases List.mem_map.1 hmem with ⟨kv0, hkv0, hEq⟩
    obtain ⟨k0, s0⟩ := kv0
    obtain ⟨hport, hdir, _⟩ := hwout (k0, s0) hkv0
    obtain ⟨sid, sval, sdir, sside, sport⟩ := s0
    have hdir' : sdir = some Dir.output := hdir
    subst hdir'
    rw [← hEq]
    rcases sside with _ | sd
    · rfl
    · show (if Dir.output = Dir.input ∨ Dir.output = Dir.inout then
        { X with inputs := applySideTo X.inputs k0 sd }
        else { X with outputs := applySideTo X.outputs k0 sd }) = X
      rw [if_neg (by decide), hXo,
        applySideTo_id hndout hkv0 rfl, ← hXo]

/-- C1 (amended): for every factory-built node instance whose live port and
property keys follow the factory's key conventions (so its portable ports
and properties are all recognized) and whose property values are all
defined, applying `load` to the result of `save` restores the entire live
state — every port value, property value and connection side — and `load`
returns no discrepancy.  (As stated, the claim additionally asserted
identity for instances with an undefined property value; those reload as an
explicit null — see the counterexample.) -/
theorem load_save_roundtrip (inst : NodeInst) (hwf : wfInst inst)
    (hdef : ∀ kv ∈ inst.inputs, kv.2.port = false → kv.2.value ≠ none) :
    loadNode inst (saveNode inst) = (inst, []) := by
  have herr := roundtrip_no_discrepancy inst hwf
  have hisEmpty : (detectDiscrepancies (parseNodeState (saveNode inst))
      inst.inputs inst.outputs).isEmpty = true := by
    rw [herr]
    rfl
  have hbranch : loadNode inst (saveNode inst) =
      (if (saveNode inst).position.isNone then
        { applySides (parentLoad inst (parseNodeState (saveNode inst)))
            (parseNodeState (saveNode inst)) with position := none }
      else applySides (parentLoad inst (parseNodeState (saveNode inst)))
        (parseNodeState (saveNode inst)), []) := by
    simp only [loadNode, hisEmpty, if_true]
  rw [hbranch, roundtrip_parentLoad inst hwf hdef,
    roundtrip_applySides inst hwf
      ({ inst with position := some (inst.position.getD ⟨0, 0⟩) }) rfl rfl]
  rcases hp : inst.position with _ | pos
  · have hsp : (saveNode inst).position = none := hp
    rw [hsp]
    show (({ inst with position := none } : NodeInst), ([] : List String))
      = (inst, [])
    have h2 : ({ inst with position := none } : NodeInst) = inst := by
      rw [← hp]
    rw [h2]
  · have hsp : (saveNode inst).position = some pos := hp
    rw [hsp]
    show (({ inst with position := some pos } : NodeInst),
      ([] : List String)) = (inst, [])
    have h2 : ({ inst with position := some pos } : NodeInst) = inst := by
      rw [← hp]
    rw [h2]

/-- C1 counterexample: a recognized (factory-shaped) instance whose single
property value is `undefined` loads back from its own save with the value
turned into an explicit null — the round trip is not the identity on that
property value even though no discrepancy is reported. -/
theorem load_save_roundtrip_cex :
    wfInst sampleInstUndef ∧
    ((sampleInstUndef.inputs.lookup "property_p").map IntfState.value)
      = some none ∧
    (loadNode sampleInstUndef (saveNode sampleInstUndef)).2 = [] ∧
    (((loadNode sampleInstUndef
        (saveNode sampleInstUndef)).1.inputs.lookup "property_p").map
      IntfState.value) = some (some JValue.null) ∧
    (loadNode sampleInstUndef (saveNode sampleInstUndef)).1
      ≠ sampleInstUndef :=
  ⟨by decide, by decide, by decide, by decide, by decide⟩

theorem load_save_roundtrip_witness :
    loadNode sampleInst (saveNode sampleInst) = (sampleInst, []) :=
  load_save_roundtrip sampleInst (by decide) (by decide)

/-! ## C9: the subgraph template builder -/

theorem enum_map_getElem? {α γ : Type} (l : List α) (f : Nat × α → γ)
    (j : Nat) : (l.enum.map f)[j]? = (l[j]?).map (fun x => f (j, x)) := by
  rw [List.getElem?_map, List.getElem?_enum]
  rcases l[j]? with _ | x <;> rfl

theorem snd_mem_enumFrom {α : Type} :
    ∀ (l : List α) (n : Nat) (ji : Nat × α), ji ∈ List.enumFrom n l →
      ji.2 ∈ l := by
  intro l
  induction l with
  | nil => intro n ji h; cases h
  | cons a as ih =>
    intro n ji h
    rcases List.mem_cons.1 h with he | hm
    · rw [he]
      exact List.mem_cons_self a as
    · exact List.mem_cons_of_mem a (ih (n + 1) ji hm)

theorem snd_mem_enum {α : Type} {l : List α} {ji : Nat × α}
    (h : ji ∈ l.enum) : ji.2 ∈ l :=
  snd_mem_enumFrom l 0 ji h

/-- C9: the subgraph template builder routes `input`/`inout` records to the
template's inputs list and `output` records to its outputs list, in order;
the identifier assigned to a record is the record's own id when present and
a freshly generated one otherwise; consequently the assignment does not
depend on the generator when every record carries an id, and rebuilding
from records that keep their assigned ids (re-exposing a hidden interface)
restores exactly the same entries. -/
theorem SubgraphFactory_spec (nodes : List PortableNode)
    (connections : List (String × String × String))
    (interfaces : List ExposedIntf) (name type : String)
    (fresh fresh' : Nat → String) :
    ((SubgraphFactory nodes connections interfaces name type fresh).inputs
        = subgraphInputs fresh interfaces ∧
      (SubgraphFactory nodes connections interfaces name type fresh).outputs
        = subgraphOutputs fresh interfaces ∧
      (SubgraphFactory nodes connections interfaces name type fresh).id
        = type) ∧
    (∀ (j : Nat) (i : ExposedIntf),
      (interfaces.filter (fun i => i.direction = .input ∨
        i.direction = .inout))[j]? = some i →
      (subgraphInputs fresh interfaces)[j]? =
        some (mkTemplateIntf fresh j i)) ∧
    (∀ (j : Nat) (i : ExposedIntf),
      (interfaces.filter (fun i => i.direction = .output))[j]? = some i →
      (subgraphOutputs fresh interfaces)[j]? =
        some (mkTemplateIntf (fun j2 => fresh (interfaces.length + j2)) j i)) ∧
    (∀ (j : Nat) (i : ExposedIntf) (x : String), i.id = some x →
      (mkTemplateIntf fresh j i).id = x) ∧
    (∀ (j : Nat) (i : ExposedIntf), i.id = none →
      (mkTemplateIntf fresh j i).id = fresh j) ∧
    ((∀ i ∈ interfaces, i.id.isSome = true) →
      subgraphInputs fresh interfaces = subgraphInputs fresh' interfaces) ∧
    (subgraphInputs fresh ((subgraphInputs fresh interfaces).map
      (fun t => ExposedIntf.mk (some t.id) t.nodeInterfaceId t.name
        t.direction)) = subgraphInputs fresh interfaces) := by
  refine ⟨⟨rfl, rfl, rfl⟩, ?_, ?_, ?_, ?_, ?_, ?_⟩
  · intro j i h
    unfold subgraphInputs
    rw [enum_map_getElem?, h]
    rfl
  · intro j i h
    unfold subgraphOutputs
    rw [enum_map_getElem?, h]
    rfl
  · intro j i x hid
    unfold mkTemplateIntf
    rw [hid]
    rfl
  · intro j i hid
    unfold mkTemplateIntf
    rw [hid]
    rfl
  · intro hall
    unfold subgraphInputs
    apply List.map_congr_left
    intro ji hji
    have hmem : ji.2 ∈ interfaces :=
      List.mem_of_mem_filter (snd_mem_enum hji)
    obtain ⟨x, hx⟩ := Option.isSome_iff_exists.1 (hall ji.2 hmem)
    unfold mkTemplateIntf
    rw [hx]
    rfl
  · unfold subgraphInputs
    have hfil : ((((interfaces.filter (fun i => i.direction = .input ∨
        i.direction = .inout)).enum.map
          (fun ji => mkTemplateIntf fresh ji.1 ji.2)).map
        (fun t => ExposedIntf.mk (some t.id) t.nodeInterfaceId t.name
          t.direction)).filter
        (fun i => i.direction = .input ∨ i.direction = .inout)) =
        (((interfaces.filter (fun i => i.direction = .input ∨
        i.direction = .inout)).enum.map
          (fun ji => mkTemplateIntf fresh ji.1 ji.2)).map
        (fun t => ExposedIntf.mk (some t.id) t.nodeInterfaceId t.name
          t.direction)) := by
      apply List.filter_eq_self.mpr
      intro a ha
      rcases List.mem_map.1 ha with ⟨t, ht, hEq⟩
      rcases List.mem_map.1 ht with ⟨ji, hji, hEq2⟩
      have hdir : ji.2.direction = .input ∨ ji.2.direction = .inout := by
        have := List.of_mem_filter (snd_mem_enum hji)
        simpa using this
      have hadir : a.direction = ji.2.direction := by
        rw [← hEq, ← hEq2]
        rfl
      rw [hadir]
      simpa using hdir
    rw [hfil, List.map_map, List.enum_map, List.map_map]
    conv_rhs => rw [← List.enum_map_snd
      ((interfaces.filter (fun i => i.direction = .input ∨
        i.direction = .inout)).enum.map
          (fun ji => mkTemplateIntf fresh ji.1 ji.2))]
    rw [List.enum_map, List.map_map]
    apply List.map_congr_left
    intro ji hji
    rfl

theorem SubgraphFactory_spec_witness :
    (subgraphInputs (fun _ => "f")
      [ExposedIntf.mk (some "id1") "ni1" "in1" Dir.input,
        ExposedIntf.mk none "ni2" "out1" Dir.output])[0]? =
      some (mkTemplateIntf (fun _ => "f") 0
        (ExposedIntf.mk (some "id1") "ni1" "in1" Dir.input)) ∧
    (mkTemplateIntf (fun _ => "f") 0
      (ExposedIntf.mk (some "id1") "ni1" "in1" Dir.input)).id = "id1" ∧
    subgraphInputs (fun _ => "f")
      [ExposedIntf.mk (some "a") "n1" "x" Dir.input,
        ExposedIntf.mk (some "b") "n2" "y" Dir.output] =
    subgraphInputs (fun _ => "g")
      [ExposedIntf.mk (some "a") "n1" "x" Dir.input,
        ExposedIntf.mk (some "b") "n2" "y" Dir.output] :=
  ⟨(SubgraphFactory_spec [] []
      [ExposedIntf.mk (some "id1") "ni1" "in1" Dir.input,
        ExposedIntf.mk none "ni2" "out1" Dir.output] "n" "t"
      (fun _ => "f") (fun _ => "g")).2.1 0
      (ExposedIntf.mk (some "id1") "ni1" "in1" Dir.input) (by decide),
    (SubgraphFactory_spec [] []
      [ExposedIntf.mk (some "id1") "ni1" "in1" Dir.input,
        ExposedIntf.mk none "ni2" "out1" Dir.output] "n" "t"
      (fun _ => "f") (fun _ => "g")).2.2.2.1 0
      (ExposedIntf.mk (some "id1") "ni1" "in1" Dir.input) "id1" rfl,
    (SubgraphFactory_spec [] []
      [ExposedIntf.mk (some "a") "n1" "x" Dir.input,
        ExposedIntf.mk (some "b") "n2" "y" Dir.output] "n" "t"
      (fun _ => "f") (fun _ => "g")).2.2.2.2.2.1 (by decide)⟩

/-! ## C5, C6, C7: the connection manager -/

/-- C5: every foreground operation run through the serializing guard sees
status polling stopped before it starts, and polling is on after the guard
returns — for every operation outcome, failure responses included (the
operation is an arbitrary state transformer producing any processed
response). -/
theorem invokeFetchAction_spec {M : Type} (op : MgrOp M) (s : MgrState M) :
    (stopStatusInterval s).idStatusInterval = none ∧
    invokeFetchAction op s =
      (startStatusInterval (op (stopStatusInterval s)).1,
        (op (stopStatusInterval s)).2) ∧
    (invokeFetchAction op s).1.idStatusInterval ≠ none := by
  refine ⟨?_, rfl, ?_⟩
  · unfold stopStatusInterval
    rcases h : s.idStatusInterval with _ | t
    · rw [if_neg (by simp)]
      exact h
    · simp only [Option.isSome_some, if_true]
  · show (startStatusInterval (op (stopStatusInterval s)).1).idStatusInterval
      ≠ none
    unfold startStatusInterval
    by_cases h : (op (stopStatusInterval s)).1.idStatusInterval = none
    · rw [if_pos h]
      simp
    · rw [if_neg h]
      exact h

theorem invokeFetchAction_spec_witness :
    MgrState.idStatusInterval
      (stopStatusInterval (MgrState.mk true (some 7) 8 (0 : Nat))) = none ∧
    invokeFetchAction (fun s => (s, []))
        (MgrState.mk true (some 7) 8 (0 : Nat)) =
      (startStatusInterval (((fun (s : MgrState Nat) => (s, ([] : List
        MgrEvent))) (stopStatusInterval
          (MgrState.mk true (some 7) 8 (0 : Nat)))).1),
        ((fun (s : MgrState Nat) => (s, ([] : List MgrEvent)))
          (stopStatusInterval (MgrState.mk true (some 7) 8 (0 : Nat)))).2) ∧
    (invokeFetchAction (fun s => (s, []))
      (MgrState.mk true (some 7) 8 (0 : Nat))).1.idStatusInterval ≠ none :=
  invokeFetchAction_spec (fun s => (s, []))
    (MgrState.mk true (some 7) 8 (0 : Nat))

/-- C6: on HTTP 200, a response body that fails to parse produces exactly
one alert — the `Not a proper JSON file.` message naming the parse
exception — and leaves the whole manager state (editor model included)
untouched; a parsed specification failing validation has its error list
surfaced and is never applied; a valid one is applied. -/
theorem requestSpecification_spec {M S : Type} (validate : S → List String)
    (update : M → S → M) (body : String) (s : MgrState M) :
    (∀ e, requestSpecification validate update .ok body (.error e) s =
      (s, [.alert ("Not a proper JSON file.\n" ++ e)])) ∧
    (∀ spec, validate spec ≠ [] →
      requestSpecification validate update .ok body (.ok spec) s =
        (s, [.alertList (validate spec), .alert "Specification loaded"])) ∧
    (∀ spec, validate spec = [] →
      requestSpecification validate update .ok body (.ok spec) s =
        ({ s with editorModel := update s.editorModel spec },
          [.alert "Loaded successfully", .alert "Specification loaded"])) := by
  refine ⟨?_, ?_, ?_⟩
  · intro e
    rfl
  · intro spec hne
    have hie : (validate spec).isEmpty = false := by
      rcases h : (validate spec).isEmpty with _ | _
      · rfl
      · exact absurd (List.isEmpty_iff.1 h) hne
    simp only [requestSpecification, hie, Bool.false_eq_true, if_false]
  · intro spec hemp
    have hie : (validate spec).isEmpty = true := by
      rw [hemp]
      rfl
    simp only [requestSpecification, hie, if_true]

theorem requestSpecification_spec_witness :
    (requestSpecification (fun sp : Nat => if sp = 0 then [] else ["bad"])
      (fun (m : Nat) (sp : Nat) => m + sp) .ok "\x7bnot json"
      (.error "SyntaxError: Unexpected token")
      (MgrState.mk true none 0 (5 : Nat)) =
      (MgrState.mk true none 0 (5 : Nat),
        [.alert ("Not a proper JSON file.\n" ++
          "SyntaxError: Unexpected token")])) ∧
    (requestSpecification (fun sp : Nat => if sp = 0 then [] else ["bad"])
      (fun (m : Nat) (sp : Nat) => m + sp) .ok "{}" (.ok 1)
      (MgrState.mk true none 0 (5 : Nat)) =
      (MgrState.mk true none 0 (5 : Nat),
        [.alertList ["bad"], .alert "Specification loaded"])) :=
  ⟨(requestSpecification_spec (fun sp : Nat => if sp = 0 then [] else ["bad"])
      (fun (m : Nat) (sp : Nat) => m + sp) "\x7bnot json"
      (MgrState.mk true none 0 (5 : Nat))).1 "SyntaxError: Unexpected token",
    by
      have h := (requestSpecification_spec
        (fun sp : Nat => if sp = 0 then [] else ["bad"])
        (fun (m : Nat) (sp : Nat) => m + sp) "{}"
        (MgrState.mk true none 0 (5 : Nat))).2.1 1 (by decide)
      simpa using h⟩

theorem startStatusInterval_connected {M : Type} (s : MgrState M) :
    (startStatusInterval s).externalApplicationConnected =
      s.externalApplicationConnected := by
  unfold startStatusInterval
  by_cases h : s.idStatusInterval = none
  · rw [if_pos h]
  · rw [if_neg h]

theorem stopStatusInterval_connected {M : Type} (s : MgrState M) :
    (stopStatusInterval s).externalApplicationConnected =
      s.externalApplicationConnected := by
  unfold stopStatusInterval
  by_cases h : s.idStatusInterval.isSome = true
  · rw [if_pos h]
  · rw [if_neg h]

/-- C7: when the recurring status poll observes a service-unavailable
response while the connection flag is up, the tick drops the flag to false
(the first event of the tick) and triggers exactly one `openTCP`
session-open retry, before the tick hands control back (the whole handler
runs to completion within the tick, so before the next poll tick fires) —
whatever the retry's own responses are. -/
theorem checkStatus_unavailable_retry {M S : Type}
    (validate : S → List String) (update : M → S → M)
    (tcpStatus : RStatus) (tcpBody : String) (specStatus : RStatus)
    (specBody : String) (parsed : Except String S) (s : MgrState M)
    (hconn : s.externalApplicationConnected = true) :
    s.externalApplicationConnected = true ∧
    ((checkStatus validate update .serviceUnavailable tcpStatus tcpBody
        specStatus specBody parsed s).2.filter MgrEvent.isOpenTCP).length
      = 1 ∧
    (checkStatus validate update .serviceUnavailable tcpStatus tcpBody
      specStatus specBody parsed s).2[0]? =
        some (.setConnected false) ∧
    (checkStatus validate update .serviceUnavailable tcpStatus tcpBody
      specStatus specBody parsed s).2[2]? = some .openTCPCall := by
  refine ⟨hconn, ?_⟩
  rcases tcpStatus with _ | _ | _
  · rcases specStatus with _ | _ | _
    · rcases parsed with e | spec
      · refine ⟨?_, ?_, ?_⟩ <;>
          simp [checkStatus, invokeFetchAction, initializeConnection,
            openTCP, requestSpecification, MgrEvent.isOpenTCP,
            startStatusInterval_connected, stopStatusInterval_connected]
      · rcases hv : (validate spec).isEmpty with _ | _ <;>
          refine ⟨?_, ?_, ?_⟩ <;>
            simp [checkStatus, invokeFetchAction, initializeConnection,
              openTCP, requestSpecification, hv, MgrEvent.isOpenTCP,
              startStatusInterval_connected, stopStatusInterval_connected]
    · refine ⟨?_, ?_, ?_⟩ <;>
        simp [checkStatus, invokeFetchAction, initializeConnection,
          openTCP, requestSpecification, MgrEvent.isOpenTCP,
          startStatusInterval_connected, stopStatusInterval_connected]
    · refine ⟨?_, ?_, ?_⟩ <;>
        simp [checkStatus, invokeFetchAction, initializeConnection,
          openTCP, requestSpecification, MgrEvent.isOpenTCP,
          startStatusInterval_connected, stopStatusInterval_connected]
  · refine ⟨?_, ?_, ?_⟩ <;>
      simp [checkStatus, invokeFetchAction, initializeConnection,
        openTCP, requestSpecification, MgrEvent.isOpenTCP,
        startStatusInterval_connected, stopStatusInterval_connected]
  · refine ⟨?_, ?_, ?_⟩ <;>
      simp [checkStatus, invokeFetchAction, initializeConnection,
        openTCP, requestSpecification, MgrEvent.isOpenTCP,
        startStatusInterval_connected, stopStatusInterval_connected]

theorem checkStatus_unavailable_retry_witness :
    MgrState.externalApplicationConnected
      (MgrState.mk true (some 3) 4 (0 : Nat)) = true ∧
    ((checkStatus (fun _ : Nat => ([] : List String))
        (fun (m : Nat) (sp : Nat) => m + sp) .serviceUnavailable .ok "tcp"
        .ok "spec" (.ok 0)
        (MgrState.mk true (some 3) 4 (0 : Nat))).2.filter
          MgrEvent.isOpenTCP).length = 1 ∧
    (checkStatus (fun _ : Nat => ([] : List String))
      (fun (m : Nat) (sp : Nat) => m + sp) .serviceUnavailable .ok "tcp"
      .ok "spec" (.ok 0)
      (MgrState.mk true (some 3) 4 (0 : Nat))).2[0]? =
        some (.setConnected false) ∧
    (checkStatus (fun _ : Nat => ([] : List String))
      (fun (m : Nat) (sp : Nat) => m + sp) .serviceUnavailable .ok "tcp"
      .ok "spec" (.ok 0)
      (MgrState.mk true (some 3) 4 (0 : Nat))).2[2]? =
        some .openTCPCall :=
  checkStatus_unavailable_retry (fun _ : Nat => ([] : List String))
    (fun (m : Nat) (sp : Nat) => m + sp) .ok "tcp" .ok "spec" (.ok 0)
    (MgrState.mk true (some 3) 4 (0 : Nat)) rfl
